import Mathlib

/-!
# Verification of `binarysearch.TooLowOrHit`

Shallow embeddings of `binarysearch.go`.  All of them model Go's `/` on `int` as `Int.tdiv`
(division truncating toward zero) and the caller supplied `Evaluator` as a pure function, and
are instrumented with two ghost components that the Go function does not return: the list of
evaluator invocations, in program order and tagged by call site, and the `return` statement
that produced the result.

* `TooLowOrHit` reads the code on unbounded integers and with the three constants as the only
  possible answers of the evaluator.  It is what the code does while no sum wraps and the
  evaluator answers with the constants, and is used for the properties stated for unbounded
  arithmetic, for ranges that cannot overflow, and for the branch `size <= 1`, which does no
  arithmetic.
* `TooLowOrHit64` reads the code on 64-bit `int`s, whose additions and subtractions wrap.
* `TooLowOrHitGo` reads the code as Go executes it: on 64-bit `int`s, and with an evaluator that
  may answer any value of the `int` type `Evaluation`, for which the `switch` has no `default`.
  As the loop then need not return, a run is observed for a given number of iterations.
  `TooLowOrHitGo_eq_TooLowOrHit` shows that it agrees with `TooLowOrHit` while `2 * first` and
  `2 * (first + size)` are 64-bit values and the evaluator answers with the constants.
-/

namespace binarysearch

/-- Evaluation indicates whether an index is too low given the target, too high, or is a hit
(`binarysearch.go`, lines 15-22). -/
inductive Evaluation where
  | TooLow
  | TooHigh
  | Hit
  deriving DecidableEq

/-- Evaluator is the caller supplied function (`binarysearch.go`, line 26). -/
abbrev Evaluator := Int → Evaluation

/-- The places of `TooLowOrHit` where the evaluator is invoked: `single` is `evaluator(first)` on
line 35, `probe` is the midpoint evaluation `evaluator(i)` on line 44, and `boundary` is one of
the re-evaluations `evaluator(b)` (line 47), `evaluator(first)` (line 55), `evaluator(a)`
(line 63). -/
inductive Site where
  | single
  | probe
  | boundary
  deriving DecidableEq

/-- One invocation of the evaluator: where it was made and on which index. -/
structure Call where
  site : Site
  index : Int
  deriving DecidableEq

/-- The `return` statements of `TooLowOrHit`, named by what they return and tagged in the
comments with their line in `binarysearch.go`. -/
inductive Exit where
  | missSmall   -- line 36: `return missIndex`
  | firstSmall  -- line 38: `return first`
  | upperHit    -- line 48: `return b`
  | probeLow    -- line 50: `return i`
  | missAll     -- line 56: `return missIndex`
  | lowerBound  -- line 58: `return a`
  | lowerHit    -- line 64: `return a`
  | probeHit    -- line 66: `return i`
  deriving DecidableEq

/-- What one run of `TooLowOrHit` does: the returned integer, the evaluator invocations made (in
order), and the `return` statement taken. -/
structure Outcome where
  result : Int
  calls : List Call
  exit : Exit
  deriving DecidableEq

/-- Effect of one pass through the body of the `for` loop: either control falls out of the
`switch` with new bounds, or a `return` statement is executed. -/
inductive Step where
  | next (a b : Int)
  | ret (r : Int) (e : Exit)
  deriving DecidableEq

/-- The body of the `for` loop (`binarysearch.go`, lines 43-69), from bounds `a`, `b`.  The `&&`
and `||` of lines 47, 55 and 63 short-circuit, so the second operand's evaluator call is
recorded only when the first operand does not decide the condition. -/
def loopBody (first beyond missIndex : Int) (evaluator : Evaluator) (a b : Int) :
    Step × List Call :=
  let i := Int.tdiv (a + b) 2
  match evaluator i with
  | .TooLow =>
    if b - i ≤ 1 then
      if b < beyond then
        if evaluator b = .Hit then
          (.ret b .upperHit, [⟨.probe, i⟩, ⟨.boundary, b⟩])
        else
          (.ret i .probeLow, [⟨.probe, i⟩, ⟨.boundary, b⟩])
      else
        (.ret i .probeLow, [⟨.probe, i⟩])
    else
      (.next i b, [⟨.probe, i⟩])
  | .TooHigh =>
    if i - a ≤ 1 then
      if a ≤ first then
        if evaluator first = .TooHigh then
          (.ret missIndex .missAll, [⟨.probe, i⟩, ⟨.boundary, first⟩])
        else
          (.ret a .lowerBound, [⟨.probe, i⟩, ⟨.boundary, first⟩])
      else
        (.ret a .lowerBound, [⟨.probe, i⟩])
    else
      (.next a i, [⟨.probe, i⟩])
  | .Hit =>
    if i - a ≤ 1 then
      if a ≥ i then
        (.ret a .lowerHit, [⟨.probe, i⟩])
      else if evaluator a = .Hit then
        (.ret a .lowerHit, [⟨.probe, i⟩, ⟨.boundary, a⟩])
      else
        (.ret i .probeHit, [⟨.probe, i⟩, ⟨.boundary, a⟩])
    else
      (.next a i, [⟨.probe, i⟩])

/-- The `for` loop of `TooLowOrHit` (`binarysearch.go`, lines 42-70), entered with bounds `a`,
`b`.  It is total for every evaluator and all bounds: whenever the body does not return, `b - a`
strictly decreases and stays positive. -/
def loop (first beyond missIndex : Int) (evaluator : Evaluator) (a b : Int) : Outcome :=
  match h : loopBody first beyond missIndex evaluator a b with
  | (.ret r e, cs) => ⟨r, cs, e⟩
  | (.next a' b', cs) =>
    let o := loop first beyond missIndex evaluator a' b'
    ⟨o.result, cs ++ o.calls, o.exit⟩
termination_by (b - a).toNat
decreasing_by
  have hm : a + b - 1 ≤ 2 * (a + b).tdiv 2 ∧ 2 * (a + b).tdiv 2 ≤ a + b + 1 := by
    rcases Int.le_total 0 (a + b) with hs | hs
    · rw [Int.tdiv_eq_ediv hs (by decide)]; omega
    · have hn : (a + b).tdiv 2 = -((-(a + b)) / 2) := by
        rw [← Int.tdiv_eq_ediv (by omega) (by decide), Int.neg_tdiv, neg_neg]
      rw [hn]; omega
  unfold loopBody at h
  simp only at h
  split at h
  all_goals
    split at h
    · repeat' split at h
      all_goals simp at h
    · simp only [Prod.mk.injEq, Step.next.injEq] at h
      obtain ⟨⟨rfl, rfl⟩, -⟩ := h
      omega

/-- TooLowOrHit executes the binary search on the indexes `first, ..., first+size-1`
(`binarysearch.go`, lines 33-71). -/
def TooLowOrHit (first size missIndex : Int) (evaluator : Evaluator) : Outcome :=
  if size ≤ 1 then
    if size ≤ 0 then
      ⟨missIndex, [], .missSmall⟩
    else if evaluator first = .TooHigh then
      ⟨missIndex, [⟨.single, first⟩], .missSmall⟩
    else
      ⟨first, [⟨.single, first⟩], .firstSmall⟩
  else
    let beyond := first + size
    loop first beyond missIndex evaluator first beyond

/-- The value a 64-bit Go `int` holds after an addition or subtraction whose exact result is
`x`: the representative of `x` modulo `2 ^ 64` in `[-2 ^ 63, 2 ^ 63)`. -/
def wrap64 (x : Int) : Int :=
  (x + 9223372036854775808) % 18446744073709551616 - 9223372036854775808

/-- The body of the `for` loop (`binarysearch.go`, lines 43-69) on 64-bit `int`s: as `loopBody`,
with the sum `a + b` and the differences `b - i`, `i - a` wrapped to 64 bits. -/
def loopBody64 (first beyond missIndex : Int) (evaluator : Evaluator) (a b : Int) :
    Step × List Call :=
  let i := Int.tdiv (wrap64 (a + b)) 2
  match evaluator i with
  | .TooLow =>
    if wrap64 (b - i) ≤ 1 then
      if b < beyond then
        if evaluator b = .Hit then
          (.ret b .upperHit, [⟨.probe, i⟩, ⟨.boundary, b⟩])
        else
          (.ret i .probeLow, [⟨.probe, i⟩, ⟨.boundary, b⟩])
      else
        (.ret i .probeLow, [⟨.probe, i⟩])
    else
      (.next i b, [⟨.probe, i⟩])
  | .TooHigh =>
    if wrap64 (i - a) ≤ 1 then
      if a ≤ first then
        if evaluator first = .TooHigh then
          (.ret missIndex .missAll, [⟨.probe, i⟩, ⟨.boundary, first⟩])
        else
          (.ret a .lowerBound, [⟨.probe, i⟩, ⟨.boundary, first⟩])
      else
        (.ret a .lowerBound, [⟨.probe, i⟩])
    else
      (.next a i, [⟨.probe, i⟩])
  | .Hit =>
    if wrap64 (i - a) ≤ 1 then
      if a ≥ i then
        (.ret a .lowerHit, [⟨.probe, i⟩])
      else if evaluator a = .Hit then
        (.ret a .lowerHit, [⟨.probe, i⟩, ⟨.boundary, a⟩])
      else
        (.ret i .probeHit, [⟨.probe, i⟩, ⟨.boundary, a⟩])
    else
      (.next a i, [⟨.probe, i⟩])

/-- The `for` loop on 64-bit `int`s, cut after `fuel` passes through its body: `none` when the
body has not returned within `fuel` passes. -/
def runLoop64 (first beyond missIndex : Int) (evaluator : Evaluator) :
    Nat → Int → Int → Option Outcome
  | 0, _, _ => none
  | fuel + 1, a, b =>
    match loopBody64 first beyond missIndex evaluator a b with
    | (.ret r e, cs) => some ⟨r, cs, e⟩
    | (.next a' b', cs) =>
      match runLoop64 first beyond missIndex evaluator fuel a' b' with
      | none => none
      | some o => some ⟨o.result, cs ++ o.calls, o.exit⟩

/-- `TooLowOrHit` on 64-bit `int`s (`binarysearch.go`, lines 33-71), for arguments that are
64-bit values, with its loop cut after `fuel` iterations: `first + size` wraps as well. -/
def TooLowOrHit64 (fuel : Nat) (first size missIndex : Int) (evaluator : Evaluator) :
    Option Outcome :=
  if size ≤ 1 then
    if size ≤ 0 then
      some ⟨missIndex, [], .missSmall⟩
    else if evaluator first = .TooHigh then
      some ⟨missIndex, [⟨.single, first⟩], .missSmall⟩
    else
      some ⟨first, [⟨.single, first⟩], .firstSmall⟩
  else
    let beyond := wrap64 (first + size)
    runLoop64 first beyond missIndex evaluator fuel first beyond

/-- The constant `TooLow` as the integer it is in Go: `type Evaluation int` (line 15) and
`TooLow = Evaluation(iota)` (line 19). -/
def tooLow : Int := 0

/-- The constant `TooHigh` as the integer it is in Go (line 20). -/
def tooHigh : Int := 1

/-- The constant `Hit` as the integer it is in Go (line 21). -/
def hit : Int := 2

/-- An `Evaluator` as Go types it (line 26): since `Evaluation` is an `int`, the function may
answer any integer, not only the three constants. -/
abbrev EvaluatorInt := Int → Int

/-- What has been observed of a run of `TooLowOrHit` within a bounded number of loop iterations:
the evaluator invocations made so far, in order, and the returned integer with the `return`
statement taken, or `none` when the function has not returned yet. -/
structure Trace where
  calls : List Call
  returned : Option (Int × Exit)
  deriving DecidableEq

/-- The body of the `for` loop (`binarysearch.go`, lines 43-69) as Go executes it: on 64-bit
`int`s, so that `a + b`, `b - i` and `i - a` wrap, and with an evaluator that may answer any
integer.  The `switch` of line 44 evaluates `evaluator(i)` once and has no `default`: when the
answer is none of the three constants no case runs and the next pass starts from the same
bounds. -/
def loopBodyGo (first beyond missIndex : Int) (evaluator : EvaluatorInt) (a b : Int) :
    Step × List Call :=
  let i := Int.tdiv (wrap64 (a + b)) 2
  let v := evaluator i
  if v = tooLow then
    if wrap64 (b - i) ≤ 1 then
      if b < beyond then
        if evaluator b = hit then
          (.ret b .upperHit, [⟨.probe, i⟩, ⟨.boundary, b⟩])
        else
          (.ret i .probeLow, [⟨.probe, i⟩, ⟨.boundary, b⟩])
      else
        (.ret i .probeLow, [⟨.probe, i⟩])
    else
      (.next i b, [⟨.probe, i⟩])
  else if v = tooHigh then
    if wrap64 (i - a) ≤ 1 then
      if a ≤ first then
        if evaluator first = tooHigh then
          (.ret missIndex .missAll, [⟨.probe, i⟩, ⟨.boundary, first⟩])
        else
          (.ret a .lowerBound, [⟨.probe, i⟩, ⟨.boundary, first⟩])
      else
        (.ret a .lowerBound, [⟨.probe, i⟩])
    else
      (.next a i, [⟨.probe, i⟩])
  else if v = hit then
    if wrap64 (i - a) ≤ 1 then
      if a ≥ i then
        (.ret a .lowerHit, [⟨.probe, i⟩])
      else if evaluator a = hit then
        (.ret a .lowerHit, [⟨.probe, i⟩, ⟨.boundary, a⟩])
      else
        (.ret i .probeHit, [⟨.probe, i⟩, ⟨.boundary, a⟩])
    else
      (.next a i, [⟨.probe, i⟩])
  else
    (.next a b, [⟨.probe, i⟩])

/-- The `for` loop (`binarysearch.go`, lines 42-70) as Go executes it, observed for `fuel`
passes through its body from bounds `a`, `b`. -/
def runLoopGo (first beyond missIndex : Int) (evaluator : EvaluatorInt) :
    Nat → Int → Int → Trace
  | 0, _, _ => ⟨[], none⟩
  | fuel + 1, a, b =>
    match loopBodyGo first beyond missIndex evaluator a b with
    | (.ret r e, cs) => ⟨cs, some (r, e)⟩
    | (.next a' b', cs) =>
      let t := runLoopGo first beyond missIndex evaluator fuel a' b'
      ⟨cs ++ t.calls, t.returned⟩

/-- `TooLowOrHit` (`binarysearch.go`, lines 33-71) as Go executes it on 64-bit `int` arguments,
observed for `fuel` iterations of its loop: `first + size` wraps like every other sum. -/
def TooLowOrHitGo (fuel : Nat) (first size missIndex : Int) (evaluator : EvaluatorInt) :
    Trace :=
  if size ≤ 1 then
    if size ≤ 0 then
      ⟨[], some (missIndex, .missSmall)⟩
    else if evaluator first = tooHigh then
      ⟨[⟨.single, first⟩], some (missIndex, .missSmall)⟩
    else
      ⟨[⟨.single, first⟩], some (first, .firstSmall)⟩
  else
    let beyond := wrap64 (first + size)
    runLoopGo first beyond missIndex evaluator fuel first beyond

/-- The bounds `(a, b)` at the start of iteration number `n` (counting from 0) of the loop as Go
executes it, entered with bounds `a`, `b`: `none` when the loop has returned before. -/
def boundsAtGo (first beyond missIndex : Int) (evaluator : EvaluatorInt) :
    Nat → Int → Int → Option (Int × Int)
  | 0, a, b => some (a, b)
  | n + 1, a, b =>
    match loopBodyGo first beyond missIndex evaluator a b with
    | (.next a' b', _) => boundsAtGo first beyond missIndex evaluator n a' b'
    | (.ret _ _, _) => none

/-- Number of midpoint probes `evaluator(i)` (line 44) in a list of evaluator invocations, which
is the number of loop iterations started. -/
def probeCount (cs : List Call) : Nat := cs.countP (fun c => c.site = .probe)

/-- Number of boundary re-evaluations `evaluator(b)`, `evaluator(first)`, `evaluator(a)`
(lines 47, 55, 63) in a list of evaluator invocations. -/
def boundaryCount (cs : List Call) : Nat := cs.countP (fun c => c.site = .boundary)

/-- An integer answer read as one of the three constants: 1 is `TooHigh`, 2 is `Hit`, and 0 is
`TooLow`.  Every other integer is read as `TooLow` as well, which agrees with the code wherever
it compares an answer with `TooHigh` or with `Hit` (lines 35, 47, 55, 63), though not in the
`switch` of line 44. -/
def toEvaluation (v : Int) : Evaluation :=
  if v = tooHigh then .TooHigh
  else if v = hit then .Hit
  else .TooLow

/-- The index `2 ^ 62 + 1 = 4611686018427387905`: a range of three indexes from it consists of
64-bit values, but the sum of its bounds does not fit in 64 bits. -/
def overflowFirst : Int := 4611686018427387905

/-- The index `-4611686018427387901`: what Go computes for `(a + b) / 2` with `a = 2 ^ 62 + 1`
and `b = 2 ^ 62 + 4`, whose sum `2 ^ 63 + 5` wraps to `-2 ^ 63 + 5`. -/
def wrappedMidpoint : Int := -4611686018427387901

/-- A caller's evaluator that compares the index with two thresholds, answering with Go's
integer constants: `TooLow` below `lo`, `Hit` from `lo` up to but not including `hi`, `TooHigh`
from `hi` on.  It is monotonic on every range. -/
def thresholdEvaluator (lo hi : Int) : EvaluatorInt := fun index =>
  if index < lo then tooLow
  else if index < hi then hit
  else tooHigh

/-- A caller's evaluator that answers `inside` on the indexes of `[first, first+size)` and
`outside` on every other index. -/
def rangeEvaluator (first size inside outside : Int) : EvaluatorInt := fun index =>
  if first ≤ index ∧ index < first + size then inside else outside

/-- The evaluator built by `newEvaluator(low, high, t, first, size)` of `binarysearch_test.go`
(lines 10-24), without its range assertions: relative to `first`, `Hit` on the indexes between
`low` and `high` inclusive, `TooLow` below `low`, `TooHigh` otherwise. -/
def newEvaluator (low high first : Int) : Evaluator := fun index =>
  let index := index - first
  if index < low then .TooLow
  else if index ≤ high then .Hit
  else .TooHigh

/-- The evaluator built by `newDummyEvaluator(d, t, first, size)` of `binarysearch_test.go`
(lines 27-34), without its range assertions: it always returns `d`. -/
def newDummyEvaluator (d : Evaluation) : Evaluator := fun _ => d

/-- The evaluator of the package's doc example (`binarysearch.go`, lines 3-8) and of
`TestHigherOrHitNaively` (`binarysearch_test.go`, lines 63-71), for a slice `ints` and a
`target`: `TooHigh` when `ints[i] > target`, `TooLow` when `ints[i] < target`, `Hit` otherwise.
In Go, `ints[i]` panics for `i` outside `[0, len(ints))`; here the evaluator answers `outside`
there, which is a parameter so that nothing can depend on it. -/
def sliceEvaluator (ints : List Int) (target : Int) (outside : Evaluation) : Evaluator :=
  fun i =>
    if i < 0 then outside
    else
      match ints[i.toNat]? with
      | none => outside
      | some x =>
        if x > target then .TooHigh
        else if x < target then .TooLow
        else .Hit

/-! ## Arithmetic of the midpoint -/

/-- Truncating division by two is within one half of the exact quotient, whatever the sign. -/
theorem tdiv_two_bounds (s : Int) : s - 1 ≤ 2 * s.tdiv 2 ∧ 2 * s.tdiv 2 ≤ s + 1 := by
  rcases Int.le_total 0 s with hs | hs
  · rw [Int.tdiv_eq_ediv hs (by decide)]; omega
  · have hn : s.tdiv 2 = -((-s) / 2) := by
      rw [← Int.tdiv_eq_ediv (by omega) (by decide), Int.neg_tdiv, neg_neg]
    rw [hn]; omega

/-- When the bounds are at least two apart the midpoint lies strictly between them. -/
theorem mid_between (a b : Int) (h : 2 ≤ b - a) :
    a < (a + b).tdiv 2 ∧ (a + b).tdiv 2 < b := by
  have := tdiv_two_bounds (a + b)
  omega

/-! ## Unfolding the loop -/

theorem loop_of_ret {first beyond missIndex : Int} {evaluator : Evaluator} {a b r : Int}
    {e : Exit} {cs : List Call}
    (h : loopBody first beyond missIndex evaluator a b = (.ret r e, cs)) :
    loop first beyond missIndex evaluator a b = ⟨r, cs, e⟩ := by
  rw [loop]
  split
  · rename_i r1 e1 cs1 h1
    rw [h] at h1
    simp only [Prod.mk.injEq, Step.ret.injEq] at h1
    obtain ⟨⟨rfl, rfl⟩, rfl⟩ := h1
    rfl
  · rename_i a1 b1 cs1 h1
    rw [h] at h1
    simp at h1

theorem loop_of_next {first beyond missIndex : Int} {evaluator : Evaluator} {a b a' b' : Int}
    {cs : List Call}
    (h : loopBody first beyond missIndex evaluator a b = (.next a' b', cs)) :
    loop first beyond missIndex evaluator a b =
      ⟨(loop first beyond missIndex evaluator a' b').result,
       cs ++ (loop first beyond missIndex evaluator a' b').calls,
       (loop first beyond missIndex evaluator a' b').exit⟩ := by
  rw [loop]
  split
  · rename_i r1 e1 cs1 h1
    rw [h] at h1
    simp at h1
  · rename_i a1 b1 cs1 h1
    rw [h] at h1
    simp only [Prod.mk.injEq, Step.next.injEq] at h1
    obtain ⟨⟨rfl, rfl⟩, rfl⟩ := h1
    rfl

/-! ## Case analysis of one pass through the loop body -/

/-- When the body falls out of the `switch`, it made the midpoint probe only, and either raised
`a` to a midpoint classified `TooLow` or lowered `b` to a midpoint classified otherwise. -/
theorem loopBody_next {first beyond missIndex : Int} {evaluator : Evaluator} {a b a' b' : Int}
    {cs : List Call}
    (h : loopBody first beyond missIndex evaluator a b = (.next a' b', cs)) :
    cs = [⟨.probe, (a + b).tdiv 2⟩] ∧
    ((evaluator ((a + b).tdiv 2) = .TooLow ∧ a' = (a + b).tdiv 2 ∧ b' = b ∧
        1 < b - (a + b).tdiv 2) ∨
     (evaluator ((a + b).tdiv 2) ≠ .TooLow ∧ a' = a ∧ b' = (a + b).tdiv 2 ∧
        1 < (a + b).tdiv 2 - a)) := by
  unfold loopBody at h
  simp only at h
  split at h
  all_goals
    split at h
    · repeat' split at h
      all_goals simp at h
    · simp only [Prod.mk.injEq, Step.next.injEq] at h
      obtain ⟨⟨rfl, rfl⟩, rfl⟩ := h
      simp_all
      try omega

/-- When the body returns, it did so through one of the nine leaves of the `switch`. -/
theorem loopBody_ret {first beyond missIndex : Int} {evaluator : Evaluator} {a b r : Int}
    {e : Exit} {cs : List Call}
    (h : loopBody first beyond missIndex evaluator a b = (.ret r e, cs)) :
    (evaluator ((a + b).tdiv 2) = .TooLow ∧ b - (a + b).tdiv 2 ≤ 1 ∧
      ((b < beyond ∧ evaluator b = .Hit ∧ r = b ∧ e = .upperHit ∧
          cs = [⟨.probe, (a + b).tdiv 2⟩, ⟨.boundary, b⟩]) ∨
       (b < beyond ∧ evaluator b ≠ .Hit ∧ r = (a + b).tdiv 2 ∧ e = .probeLow ∧
          cs = [⟨.probe, (a + b).tdiv 2⟩, ⟨.boundary, b⟩]) ∨
       (¬ b < beyond ∧ r = (a + b).tdiv 2 ∧ e = .probeLow ∧
          cs = [⟨.probe, (a + b).tdiv 2⟩]))) ∨
    (evaluator ((a + b).tdiv 2) = .TooHigh ∧ (a + b).tdiv 2 - a ≤ 1 ∧
      ((a ≤ first ∧ evaluator first = .TooHigh ∧ r = missIndex ∧ e = .missAll ∧
          cs = [⟨.probe, (a + b).tdiv 2⟩, ⟨.boundary, first⟩]) ∨
       (a ≤ first ∧ evaluator first ≠ .TooHigh ∧ r = a ∧ e = .lowerBound ∧
          cs = [⟨.probe, (a + b).tdiv 2⟩, ⟨.boundary, first⟩]) ∨
       (¬ a ≤ first ∧ r = a ∧ e = .lowerBound ∧
          cs = [⟨.probe, (a + b).tdiv 2⟩]))) ∨
    (evaluator ((a + b).tdiv 2) = .Hit ∧ (a + b).tdiv 2 - a ≤ 1 ∧
      ((a ≥ (a + b).tdiv 2 ∧ r = a ∧ e = .lowerHit ∧
          cs = [⟨.probe, (a + b).tdiv 2⟩]) ∨
       (¬ a ≥ (a + b).tdiv 2 ∧ evaluator a = .Hit ∧ r = a ∧ e = .lowerHit ∧
          cs = [⟨.probe, (a + b).tdiv 2⟩, ⟨.boundary, a⟩]) ∨
       (¬ a ≥ (a + b).tdiv 2 ∧ evaluator a ≠ .Hit ∧ r = (a + b).tdiv 2 ∧ e = .probeHit ∧
          cs = [⟨.probe, (a + b).tdiv 2⟩, ⟨.boundary, a⟩]))) := by
  unfold loopBody at h
  simp only at h
  split at h
  all_goals
    split at h
    · repeat' split at h
      all_goals
        simp only [Prod.mk.injEq, Step.ret.injEq] at h
        obtain ⟨⟨rfl, rfl⟩, rfl⟩ := h
        simp_all
    · simp at h

/-! ## Induction along the iterations of the loop -/

/-- Induction principle for the loop, carrying the invariant `first ≤ a`, `b ≤ beyond`,
`2 ≤ b - a` of its bounds: a property of the outcome holds from all such bounds when it holds
for a returning pass and is carried backwards over a pass that continues. -/
theorem loop_induct {first beyond missIndex : Int} {evaluator : Evaluator}
    (P : Int → Int → Outcome → Prop)
    (hret : ∀ a b r e cs, first ≤ a → b ≤ beyond → 2 ≤ b - a →
      loopBody first beyond missIndex evaluator a b = (.ret r e, cs) → P a b ⟨r, cs, e⟩)
    (hnext : ∀ a b a' b' cs, first ≤ a → b ≤ beyond → 2 ≤ b - a →
      loopBody first beyond missIndex evaluator a b = (.next a' b', cs) →
      first ≤ a' → b' ≤ beyond → 2 ≤ b' - a' →
      P a' b' (loop first beyond missIndex evaluator a' b') →
      P a b ⟨(loop first beyond missIndex evaluator a' b').result,
             cs ++ (loop first beyond missIndex evaluator a' b').calls,
             (loop first beyond missIndex evaluator a' b').exit⟩) :
    ∀ a b, first ≤ a → b ≤ beyond → 2 ≤ b - a →
      P a b (loop first beyond missIndex evaluator a b) := by
  intro a b
  generalize hn : (b - a).toNat = n
  induction n using Nat.strong_induction_on generalizing a b with
  | _ n ih =>
    intro ha hb hab
    subst hn
    have hmid := mid_between a b hab
    rcases hbody : loopBody first beyond missIndex evaluator a b with ⟨st, cs⟩
    cases st with
    | next a' b' =>
      rw [loop_of_next hbody]
      have hcases := (loopBody_next hbody).2
      have hinv : first ≤ a' ∧ b' ≤ beyond ∧ 2 ≤ b' - a' ∧ (b' - a').toNat < (b - a).toNat := by
        rcases hcases with ⟨_, rfl, rfl, h1⟩ | ⟨_, rfl, rfl, h1⟩ <;> omega
      obtain ⟨h1, h2, h3, h4⟩ := hinv
      exact hnext a b a' b' cs ha hb hab hbody h1 h2 h3 (ih _ h4 a' b' rfl h1 h2 h3)
    | ret r e =>
      rw [loop_of_ret hbody]
      exact hret a b r e cs ha hb hab hbody

/-! ## The loop on a monotonic evaluator -/

/-- On a range split into `L` too-low, then `M` hit, then too-high indexes, every in-range
index is classified according to the block it lies in, and conversely. -/
theorem classify {first size L M : Int} {evaluator : Evaluator}
    (hlow : ∀ k, first ≤ k → k < first + L → evaluator k = .TooLow)
    (hhit : ∀ k, first + L ≤ k → k < first + L + M → evaluator k = .Hit)
    (hhigh : ∀ k, first + L + M ≤ k → k < first + size → evaluator k = .TooHigh)
    (k : Int) (h1 : first ≤ k) (h2 : k < first + size) :
    (evaluator k = .TooLow ∧ k < first + L) ∨
    (evaluator k = .Hit ∧ first + L ≤ k ∧ k < first + L + M) ∨
    (evaluator k = .TooHigh ∧ first + L + M ≤ k) := by
  by_cases c1 : k < first + L
  · exact Or.inl ⟨hlow k h1 c1, c1⟩
  · by_cases c2 : k < first + L + M
    · exact Or.inr (Or.inl ⟨hhit k (by omega) c2, by omega, c2⟩)
    · exact Or.inr (Or.inr ⟨hhigh k (by omega) h2, by omega⟩)

/-- Correctness of the loop on a monotonic evaluator, from any bounds that satisfy the
invariant "`a` is `first` or too low, `b` is `first+size` or not too low": the result is the
lowest hit if there is one, else the highest too-low index if there is one, else `missIndex`. -/
theorem loop_partition {first size missIndex L M : Int} {evaluator : Evaluator}
    (hL : 0 ≤ L) (hM : 0 ≤ M) (hLM : L + M ≤ size)
    (hlow : ∀ k, first ≤ k → k < first + L → evaluator k = .TooLow)
    (hhit : ∀ k, first + L ≤ k → k < first + L + M → evaluator k = .Hit)
    (hhigh : ∀ k, first + L + M ≤ k → k < first + size → evaluator k = .TooHigh)
    (a0 b0 : Int) (ha0 : first ≤ a0) (hb0 : b0 ≤ first + size) (hab0 : 2 ≤ b0 - a0)
    (hainv : a0 = first ∨ a0 < first + L) (hbinv : b0 = first + size ∨ first + L ≤ b0) :
    (loop first (first + size) missIndex evaluator a0 b0).result =
      if 1 ≤ M then first + L else if 1 ≤ L then first + L - 1 else missIndex := by
  have key := classify hlow hhit hhigh
  revert hainv hbinv
  refine loop_induct
    (fun a b o => (a = first ∨ a < first + L) → (b = first + size ∨ first + L ≤ b) →
      o.result = if 1 ≤ M then first + L else if 1 ≤ L then first + L - 1 else missIndex)
    ?_ ?_ a0 b0 ha0 hb0 hab0
  · intro a b r e cs ha hb hab hbody hainv hbinv
    have hmid := mid_between a b hab
    have ki := key ((a + b).tdiv 2) (by omega) (by omega)
    have ka := key a ha (by omega)
    have kf := key first (by omega) (by omega)
    simp only
    rcases loopBody_ret hbody with
      ⟨hi, hd, ⟨hc, hv, hr, -, -⟩ | ⟨hc, hv, hr, -, -⟩ | ⟨hc, hr, -, -⟩⟩ |
      ⟨hi, hd, ⟨hc, hv, hr, -, -⟩ | ⟨hc, hv, hr, -, -⟩ | ⟨hc, hr, -, -⟩⟩ |
      ⟨hi, hd, ⟨hc, hr, -, -⟩ | ⟨hc, hv, hr, -, -⟩ | ⟨hc, hv, hr, -, -⟩⟩
    all_goals
      first
        | (have kb := key b (by omega) (by omega)
           simp only [hi, hv, false_and, and_false, true_and, false_or, or_false,
             ne_eq, not_true_eq_false, not_false_eq_true, reduceCtorEq] at ki ka kf kb
           split_ifs <;> omega)
        | (simp only [hi, hv, false_and, and_false, true_and, false_or, or_false,
             ne_eq, not_true_eq_false, not_false_eq_true, reduceCtorEq] at ki ka kf
           split_ifs <;> omega)
        | (simp only [hi, false_and, and_false, true_and, false_or, or_false,
             ne_eq, not_true_eq_false, not_false_eq_true, reduceCtorEq] at ki ka kf
           split_ifs <;> omega)
  · intro a b a' b' cs ha hb hab hbody ha' hb' hab' ih hainv hbinv
    have hmid := mid_between a b hab
    have ki := key ((a + b).tdiv 2) (by omega) (by omega)
    simp only
    apply ih
    · rcases (loopBody_next hbody).2 with ⟨hi, rfl, rfl, -⟩ | ⟨hi, rfl, rfl, -⟩
      · simp only [hi, false_and, true_and, false_or, or_false, reduceCtorEq] at ki
        exact Or.inr ki
      · exact hainv
    · rcases (loopBody_next hbody).2 with ⟨hi, rfl, rfl, -⟩ | ⟨hi, rfl, rfl, -⟩
      · exact hbinv
      · rcases ki with ⟨h1, -⟩ | ⟨-, h1, -⟩ | ⟨-, h1⟩
        · exact absurd h1 hi
        · exact Or.inr h1
        · exact Or.inr (by omega)

/-- Correctness of `TooLowOrHit` on a monotonic evaluator over a non-empty range, in the three
rules of its doc comment. -/
theorem TooLowOrHit_partition (first size missIndex L M : Int) (evaluator : Evaluator)
    (hsize : 1 ≤ size) (hL : 0 ≤ L) (hM : 0 ≤ M) (hLM : L + M ≤ size)
    (hlow : ∀ k, first ≤ k → k < first + L → evaluator k = .TooLow)
    (hhit : ∀ k, first + L ≤ k → k < first + L + M → evaluator k = .Hit)
    (hhigh : ∀ k, first + L + M ≤ k → k < first + size → evaluator k = .TooHigh) :
    (TooLowOrHit first size missIndex evaluator).result =
      if 1 ≤ M then first + L else if 1 ≤ L then first + L - 1 else missIndex := by
  unfold TooLowOrHit
  by_cases h1 : size ≤ 1
  · have kf := classify hlow hhit hhigh first (by omega) (by omega)
    rw [if_pos h1, if_neg (by omega)]
    rcases kf with ⟨hf, hk⟩ | ⟨hf, hk, hk2⟩ | ⟨hf, hk⟩
    · rw [if_neg (by rw [hf]; decide)]
      simp only
      split_ifs <;> omega
    · rw [if_neg (by rw [hf]; decide)]
      simp only
      split_ifs <;> omega
    · rw [if_pos hf]
      simp only
      split_ifs <;> omega
  · rw [if_neg h1]
    exact loop_partition hL hM hLM hlow hhit hhigh first (first + size) (le_refl _) (le_refl _)
      (by omega) (Or.inl rfl) (Or.inl rfl)

/-! ## The loop on an arbitrary evaluator -/

/-- Every index the loop passes to the evaluator lies in `[first, beyond)`, whatever the
evaluator answers. -/
theorem loop_calls_in_range {first beyond missIndex : Int} {evaluator : Evaluator}
    (a0 b0 : Int) (ha0 : first ≤ a0) (hb0 : b0 ≤ beyond) (hab0 : 2 ≤ b0 - a0) :
    ∀ c ∈ (loop first beyond missIndex evaluator a0 b0).calls,
      first ≤ c.index ∧ c.index < beyond := by
  refine loop_induct (fun _ _ o => ∀ c ∈ o.calls, first ≤ c.index ∧ c.index < beyond)
    ?_ ?_ a0 b0 ha0 hb0 hab0
  · intro a b r e cs ha hb hab hbody c hc
    have hmid := mid_between a b hab
    simp only at hc
    rcases loopBody_ret hbody with
      ⟨-, -, ⟨hlt, -, -, -, hcs⟩ | ⟨hlt, -, -, -, hcs⟩ | ⟨-, -, -, hcs⟩⟩ |
      ⟨-, -, ⟨-, -, -, -, hcs⟩ | ⟨-, -, -, -, hcs⟩ | ⟨-, -, -, hcs⟩⟩ |
      ⟨-, -, ⟨-, -, -, hcs⟩ | ⟨-, -, -, -, hcs⟩ | ⟨-, -, -, -, hcs⟩⟩
    all_goals
      rw [hcs] at hc
      simp only [List.mem_cons, List.mem_singleton, List.not_mem_nil, or_false] at hc
      rcases hc with rfl | rfl <;> simp only <;> omega
  · intro a b a' b' cs ha hb hab hbody ha' hb' hab' ih c hc
    have hmid := mid_between a b hab
    simp only [List.mem_append] at hc
    rcases hc with hc | hc
    · rw [(loopBody_next hbody).1] at hc
      simp only [List.mem_singleton] at hc
      subst hc
      simp only
      omega
    · exact ih c hc

/-- The run of the scenario of the specification (`first = 0`, `size = 7`, `missIndex = -1`,
indexes 0-1 too low, 2-4 hit, 5-6 too high): three midpoint probes, on 3, 1 and 2, then the
re-evaluation of `a = 1`, and `return i` with `i = 2`. -/
theorem scenario_run :
    TooLowOrHit 0 7 (-1) (newEvaluator 2 4 0) =
      ⟨2, [⟨.probe, 3⟩, ⟨.probe, 1⟩, ⟨.probe, 2⟩, ⟨.boundary, 1⟩], .probeHit⟩ := by
  have h1 : loopBody 0 (0 + 7) (-1) (newEvaluator 2 4 0) 0 (0 + 7) =
      (.next 0 3, [⟨.probe, 3⟩]) := by decide
  have h2 : loopBody 0 (0 + 7) (-1) (newEvaluator 2 4 0) 0 3 =
      (.next 1 3, [⟨.probe, 1⟩]) := by decide
  have h3 : loopBody 0 (0 + 7) (-1) (newEvaluator 2 4 0) 1 3 =
      (.ret 2 .probeHit, [⟨.probe, 2⟩, ⟨.boundary, 1⟩]) := by decide
  unfold TooLowOrHit
  rw [if_neg (by decide)]
  simp only
  rw [loop_of_next h1, loop_of_next h2, loop_of_ret h3]
  rfl

/-! ## Monotonic evaluators -/

/-- An evaluator that never answers `TooLow` above another answer and never answers anything
but `TooHigh` above a `TooHigh`, on the `n` indexes from `first`, splits them into a too-low
prefix of some length `L`, a hit block of some length `M` and a too-high suffix. -/
theorem exists_partition (evaluator : Evaluator) (first : Int) (n : Nat)
    (hmono : ∀ i j, first ≤ i → i ≤ j → j < first + n →
      (evaluator j = .TooLow → evaluator i = .TooLow) ∧
      (evaluator i = .TooHigh → evaluator j = .TooHigh)) :
    ∃ L M : Int, 0 ≤ L ∧ 0 ≤ M ∧ L + M ≤ n ∧
      (∀ k, first ≤ k → k < first + L → evaluator k = .TooLow) ∧
      (∀ k, first + L ≤ k → k < first + L + M → evaluator k = .Hit) ∧
      (∀ k, first + L + M ≤ k → k < first + n → evaluator k = .TooHigh) := by
  induction n with
  | zero =>
    exact ⟨0, 0, le_refl _, le_refl _, by simp, fun k h1 h2 => by omega,
      fun k h1 h2 => by omega, fun k h1 h2 => by simp at h2; omega⟩
  | succ n ih =>
    obtain ⟨L, M, hL, hM, hLM, hlow, hhit, hhigh⟩ :=
      ih (fun i j h1 h2 h3 => hmono i j h1 h2 (by push_cast; omega))
    have hlast := fun i (h1 : first ≤ i) (h2 : i ≤ first + n) =>
      hmono i (first + n) h1 h2 (by push_cast; omega)
    cases hv : evaluator (first + n) with
    | TooLow =>
      refine ⟨n + 1, 0, by omega, le_refl _, by push_cast; omega, ?_, ?_, ?_⟩
      · intro k h1 h2
        exact (hlast k h1 (by omega)).1 hv
      · intro k h1 h2
        omega
      · intro k h1 h2
        push_cast at h2
        omega
    | Hit =>
      have hLMn : L + M = n := by
        by_contra hne
        have h1 := hhigh (first + L + M) (le_refl _) (by omega)
        have h2 := (hlast (first + L + M) (by omega) (by omega)).2 h1
        rw [hv] at h2
        exact absurd h2 (by decide)
      refine ⟨L, M + 1, hL, by omega, by push_cast; omega, hlow, ?_, ?_⟩
      · intro k h1 h2
        by_cases hk : k < first + L + M
        · exact hhit k h1 hk
        · have : k = first + n := by omega
          rw [this, hv]
      · intro k h1 h2
        push_cast at h2
        omega
    | TooHigh =>
      refine ⟨L, M, hL, hM, by push_cast; omega, hlow, hhit, ?_⟩
      intro k h1 h2
      by_cases hk : k < first + n
      · exact hhigh k h1 hk
      · have : k = first + n := by push_cast at h2; omega
        rw [this, hv]

/-! ## The evaluator of a sorted slice -/

/-- Inside the slice the evaluator compares the element with the target. -/
theorem sliceEvaluator_eq (ints : List Int) (target : Int) (outside : Evaluation) (k v : Int)
    (hk : 0 ≤ k) (hv : ints[k.toNat]? = some v) :
    sliceEvaluator ints target outside k =
      if v > target then .TooHigh else if v < target then .TooLow else .Hit := by
  unfold sliceEvaluator
  rw [if_neg (by omega), hv]

/-- In a sorted slice, elements come in the order of their indexes. -/
theorem sorted_getElem?_le {xs : List Int} (hsorted : xs.Sorted (· ≤ ·)) {i j : Nat} {v w : Int}
    (hij : i ≤ j) (hv : xs[i]? = some v) (hw : xs[j]? = some w) : v ≤ w := by
  obtain ⟨hi, rfl⟩ := List.getElem?_eq_some.mp hv
  obtain ⟨hj, rfl⟩ := List.getElem?_eq_some.mp hw
  rcases Nat.eq_or_lt_of_le hij with h | h
  · subst h
    exact le_refl _
  · exact List.pairwise_iff_getElem.mp hsorted i j hi hj h

/-- On a sorted slice, the blocks of the evaluator are the elements below the target, the
elements equal to it and the elements above it. -/
theorem sliceEvaluator_blocks {xs : List Int} {t : Int} {outside : Evaluation}
    (hsorted : xs.Sorted (· ≤ ·)) :
    ∃ L M : Int, 0 ≤ L ∧ 0 ≤ M ∧ L + M ≤ xs.length ∧
      (∀ k, 0 ≤ k → k < 0 + L → sliceEvaluator xs t outside k = .TooLow) ∧
      (∀ k, 0 + L ≤ k → k < 0 + L + M → sliceEvaluator xs t outside k = .Hit) ∧
      (∀ k, 0 + L + M ≤ k → k < 0 + xs.length →
        sliceEvaluator xs t outside k = .TooHigh) ∧
      (∀ (j : Nat) (w : Int), xs[j]? = some w →
        (w < t ↔ (j : Int) < L) ∧ (w = t ↔ L ≤ (j : Int) ∧ (j : Int) < L + M) ∧
        (w > t ↔ L + M ≤ (j : Int))) := by
  have hmono : ∀ i j : Int, 0 ≤ i → i ≤ j → j < 0 + xs.length →
      (sliceEvaluator xs t outside j = .TooLow → sliceEvaluator xs t outside i = .TooLow) ∧
      (sliceEvaluator xs t outside i = .TooHigh →
        sliceEvaluator xs t outside j = .TooHigh) := by
    intro i j hi hij hj
    have hin : i.toNat < xs.length := by omega
    have hjn : j.toNat < xs.length := by omega
    have hle := sorted_getElem?_le hsorted (show i.toNat ≤ j.toNat by omega)
      (List.getElem?_eq_getElem hin) (List.getElem?_eq_getElem hjn)
    rw [sliceEvaluator_eq xs t outside i _ hi (List.getElem?_eq_getElem hin),
      sliceEvaluator_eq xs t outside j _ (by omega) (List.getElem?_eq_getElem hjn)]
    constructor
    · intro h
      split_ifs at h ⊢ <;> first | rfl | omega
    · intro h
      split_ifs at h ⊢ <;> first | rfl | omega
  obtain ⟨L, M, hL, hM, hLM, hlow, hhit, hhigh⟩ :=
    exists_partition (sliceEvaluator xs t outside) 0 xs.length hmono
  refine ⟨L, M, hL, hM, hLM, hlow, hhit, hhigh, ?_⟩
  intro j w hw
  have hj : j < xs.length := (List.getElem?_eq_some.mp hw).1
  have hev := sliceEvaluator_eq xs t outside (j : Int) w (by omega) (by simpa using hw)
  rcases classify hlow hhit hhigh (j : Int) (by omega) (by omega) with
    ⟨h1, h2⟩ | ⟨h1, h2, h3⟩ | ⟨h1, h2⟩
  all_goals
    rw [h1] at hev
    split_ifs at hev
    omega

/-! ## The three rules of the doc comment -/

/-- C1: on a range split into `L ≥ 0` too-low indexes, then `M ≥ 1` hits, then `H ≥ 0` too-high
indexes, `TooLowOrHit` returns `first + L`, the lowest index classified `Hit`. -/
theorem TooLowOrHit_lowest_hit (first size missIndex L M H : Int) (evaluator : Evaluator)
    (hL : 0 ≤ L) (hM : 1 ≤ M) (hH : 0 ≤ H) (hsize : size = L + M + H)
    (hlow : ∀ k, first ≤ k → k ≤ first + L - 1 → evaluator k = .TooLow)
    (hhit : ∀ k, first + L ≤ k → k ≤ first + L + M - 1 → evaluator k = .Hit)
    (hhigh : ∀ k, first + L + M ≤ k → k ≤ first + size - 1 → evaluator k = .TooHigh) :
    (TooLowOrHit first size missIndex evaluator).result = first + L := by
  have h := TooLowOrHit_partition first size missIndex L M evaluator (by omega) hL (by omega) (by omega)
    (fun k h1 h2 => hlow k h1 (by omega)) (fun k h1 h2 => hhit k h1 (by omega))
    (fun k h1 h2 => hhigh k h1 (by omega))
  rw [h, if_pos hM]

/-- The scenario of the specification: indexes 0-1 too low, 2-4 hit, 5-6 too high
give result 2. -/
theorem TooLowOrHit_lowest_hit_witness :
    (TooLowOrHit 0 7 (-1) (newEvaluator 2 4 0)).result = 0 + 2 :=
  TooLowOrHit_lowest_hit 0 7 (-1) 2 3 2 (newEvaluator 2 4 0)
    (by decide) (by decide) (by decide) (by decide)
    (fun k h1 h2 => by simp only [newEvaluator]; rw [if_pos (by omega)])
    (fun k h1 h2 => by
      simp only [newEvaluator]; rw [if_neg (by omega), if_pos (by omega)])
    (fun k h1 h2 => by
      simp only [newEvaluator]; rw [if_neg (by omega), if_neg (by omega)])

/-- C4: for a size that is zero or negative, `TooLowOrHit` returns `missIndex` and never invokes
the evaluator. -/
theorem TooLowOrHit_empty (first size missIndex : Int) (evaluator : Evaluator)
    (hsize : size ≤ 0) :
    (TooLowOrHit first size missIndex evaluator).result = missIndex ∧
    (TooLowOrHit first size missIndex evaluator).calls = [] := by
  unfold TooLowOrHit
  rw [if_pos (by omega), if_pos hsize]
  exact ⟨rfl, rfl⟩

/-- A negative size from a negative first index, as in the test of the repository. -/
theorem TooLowOrHit_empty_witness :
    (TooLowOrHit (-3) (-2) (-12) (newDummyEvaluator .Hit)).result = -12 ∧
    (TooLowOrHit (-3) (-2) (-12) (newDummyEvaluator .Hit)).calls = [] :=
  TooLowOrHit_empty (-3) (-2) (-12) (newDummyEvaluator .Hit) (by decide)

/-! ## Safety for every evaluator -/

/-- C5: for every evaluator, monotonic or not, every index that `TooLowOrHit` passes to the
evaluator, the boundary re-evaluations included, lies in `[first, first+size)`. -/
theorem TooLowOrHit_calls_in_range (first size missIndex : Int) (evaluator : Evaluator) :
    ∀ c ∈ (TooLowOrHit first size missIndex evaluator).calls,
      first ≤ c.index ∧ c.index < first + size := by
  unfold TooLowOrHit
  by_cases h1 : size ≤ 1
  · rw [if_pos h1]
    by_cases h0 : size ≤ 0
    · rw [if_pos h0]
      intro c hc
      simp at hc
    · rw [if_neg h0]
      intro c hc
      have hc1 : c = ⟨.single, first⟩ := by
        split at hc <;> simpa using hc
      subst hc1
      simp only
      omega
  · rw [if_neg h1]
    exact loop_calls_in_range first (first + size) (le_refl _) (le_refl _) (by omega)

/-- In the scenario of the specification the boundary re-evaluation `evaluator(a)` is made on
index 1, inside `[0, 7)`. -/
theorem TooLowOrHit_calls_in_range_witness : (0 : Int) ≤ 1 ∧ (1 : Int) < 0 + 7 :=
  TooLowOrHit_calls_in_range 0 7 (-1) (newEvaluator 2 4 0) ⟨.boundary, 1⟩
    (by rw [scenario_run]; decide)

/-! ## The doc example: searching a sorted slice -/

/-- C6: for a slice `xs` of integers sorted smallest first and a target `t`, the result `r` of
`TooLowOrHit(0, len(xs), -1, evaluator)`, where the evaluator answers `TooHigh` if `xs[i] > t`,
`TooLow` if `xs[i] < t` and `Hit` otherwise, is `-1` exactly when every element is `> t` (which
includes the empty slice); otherwise `r` is an index of `xs`, and if `xs[r] < t` then no element
equals `t` and `r` is the largest index of an element `< t`, else `xs[r] = t` and `r` is the
lowest index of an element equal to `t`. -/
theorem TooLowOrHit_sorted_slice (xs : List Int) (t : Int) (outside : Evaluation)
    (hsorted : xs.Sorted (· ≤ ·)) (r : Int)
    (hr : (TooLowOrHit 0 xs.length (-1) (sliceEvaluator xs t outside)).result = r) :
    (r = -1 ↔ ∀ x ∈ xs, x > t) ∧
    (r ≠ -1 → 0 ≤ r ∧ r < xs.length ∧ ∃ v, xs[r.toNat]? = some v ∧
      (v < t → (∀ x ∈ xs, x ≠ t) ∧
        ∀ (j : Nat) (w : Int), xs[j]? = some w → w < t → (j : Int) ≤ r) ∧
      (¬ v < t → v = t ∧
        ∀ (j : Nat) (w : Int), xs[j]? = some w → w = t → r ≤ (j : Int))) := by
  obtain ⟨L, M, hL, hM, hLM, hlow, hhit, hhigh, hblk⟩ :=
    @sliceEvaluator_blocks xs t outside hsorted
  by_cases hlen : (1 : Int) ≤ xs.length
  · have hres := TooLowOrHit_partition 0 xs.length (-1) L M (sliceEvaluator xs t outside)
      hlen hL hM hLM hlow hhit hhigh
    rw [hr] at hres
    have h0 : 0 < xs.length := by omega
    have hfirst := hblk 0 xs[0] (List.getElem?_eq_getElem h0)
    constructor
    · constructor
      · intro h x hx
        obtain ⟨j, hj⟩ := List.mem_iff_getElem?.mp hx
        have hjx := hblk j x hj
        split_ifs at hres <;> omega
      · intro h
        have hx := h xs[0] (List.getElem_mem h0)
        split_ifs at hres <;> omega
    · intro hne
      have hrange : 0 ≤ r ∧ r < xs.length := by
        split_ifs at hres <;> omega
      have hrn : r.toNat < xs.length := by omega
      have hrv := hblk r.toNat xs[r.toNat] (List.getElem?_eq_getElem hrn)
      refine ⟨hrange.1, hrange.2, xs[r.toNat], List.getElem?_eq_getElem hrn, ?_, ?_⟩
      · intro hv
        constructor
        · intro x hx hxt
          obtain ⟨j, hj⟩ := List.mem_iff_getElem?.mp hx
          have hjx := hblk j x hj
          split_ifs at hres <;> omega
        · intro j w hj hw
          have hjx := hblk j w hj
          split_ifs at hres <;> omega
      · intro hv
        constructor
        · split_ifs at hres <;> omega
        · intro j w hj hw
          have hjx := hblk j w hj
          split_ifs at hres <;> omega
  · have hnil : xs = [] := List.eq_nil_of_length_eq_zero (by omega)
    subst hnil
    have hm : r = -1 := by
      rw [← hr]
      rfl
    exact ⟨⟨fun _ x hx => by simp at hx, fun _ => hm⟩, fun hne => absurd hm hne⟩

/-- The case `{5, []int{2, 3, 5, 5, 5, 6, 7}, 2}` of `TestHigherOrHitNaively`: the result is 2,
the lowest index of an element equal to 5. -/
theorem TooLowOrHit_sorted_slice_witness :
    ((2 : Int) = -1 ↔ ∀ x ∈ [2, 3, 5, 5, 5, 6, 7], x > (5 : Int)) ∧
    ((2 : Int) ≠ -1 → (0 : Int) ≤ 2 ∧ (2 : Int) < ([2, 3, 5, 5, 5, 6, 7] : List Int).length ∧
      ∃ v, ([2, 3, 5, 5, 5, 6, 7] : List Int)[(2 : Int).toNat]? = some v ∧
      (v < 5 → (∀ x ∈ ([2, 3, 5, 5, 5, 6, 7] : List Int), x ≠ 5) ∧
        ∀ (j : Nat) (w : Int), ([2, 3, 5, 5, 5, 6, 7] : List Int)[j]? = some w → w < 5 →
          (j : Int) ≤ 2) ∧
      (¬ v < 5 → v = 5 ∧
        ∀ (j : Nat) (w : Int), ([2, 3, 5, 5, 5, 6, 7] : List Int)[j]? = some w → w = 5 →
          (2 : Int) ≤ (j : Int))) :=
  TooLowOrHit_sorted_slice [2, 3, 5, 5, 5, 6, 7] 5 .Hit (by decide) 2 (by
    have h1 : loopBody 0 (0 + 7) (-1) (sliceEvaluator [2, 3, 5, 5, 5, 6, 7] 5 .Hit) 0 (0 + 7) =
        (.next 0 3, [⟨.probe, 3⟩]) := by decide
    have h2 : loopBody 0 (0 + 7) (-1) (sliceEvaluator [2, 3, 5, 5, 5, 6, 7] 5 .Hit) 0 3 =
        (.next 1 3, [⟨.probe, 1⟩]) := by decide
    have h3 : loopBody 0 (0 + 7) (-1) (sliceEvaluator [2, 3, 5, 5, 5, 6, 7] 5 .Hit) 1 3 =
        (.ret 2 .probeHit, [⟨.probe, 2⟩, ⟨.boundary, 1⟩]) := by decide
    have hlen : (([2, 3, 5, 5, 5, 6, 7] : List Int).length : Int) = 7 := rfl
    rw [hlen]
    unfold TooLowOrHit
    rw [if_neg (by decide)]
    simp only
    rw [loop_of_next h1, loop_of_next h2, loop_of_ret h3])

/-! ## The range of the doc comment -/

/-- The run on seven indexes from 0 that are all too low: three midpoint probes, on 3, 5 and 6,
and `return i` with `i = 6`, the last index of the range. -/
theorem all_too_low_run :
    TooLowOrHit 0 7 (-1) (newDummyEvaluator .TooLow) =
      ⟨6, [⟨.probe, 3⟩, ⟨.probe, 5⟩, ⟨.probe, 6⟩], .probeLow⟩ := by
  have h1 : loopBody 0 (0 + 7) (-1) (newDummyEvaluator .TooLow) 0 (0 + 7) =
      (.next 3 (0 + 7), [⟨.probe, 3⟩]) := by decide
  have h2 : loopBody 0 (0 + 7) (-1) (newDummyEvaluator .TooLow) 3 (0 + 7) =
      (.next 5 (0 + 7), [⟨.probe, 5⟩]) := by decide
  have h3 : loopBody 0 (0 + 7) (-1) (newDummyEvaluator .TooLow) 5 (0 + 7) =
      (.ret 6 .probeLow, [⟨.probe, 6⟩]) := by decide
  unfold TooLowOrHit
  rw [if_neg (by decide)]
  simp only
  rw [loop_of_next h1, loop_of_next h2, loop_of_ret h3]
  rfl

/-- C11, as stated, fails: on seven indexes from 0 that are all too low, with `missIndex = -1`,
the index 6 = `first + size - 1` is passed to the evaluator and returned, so it is not true
that every evaluated index and every returned index other than `missIndex` is below
`first + size - 1`. -/
theorem TooLowOrHit_doc_range_counterexample :
    ¬ ((∀ c ∈ (TooLowOrHit 0 7 (-1) (newDummyEvaluator .TooLow)).calls,
          (0 : Int) ≤ c.index ∧ c.index < 0 + 7 - 1) ∧
       ((TooLowOrHit 0 7 (-1) (newDummyEvaluator .TooLow)).result ≠ -1 →
          (0 : Int) ≤ (TooLowOrHit 0 7 (-1) (newDummyEvaluator .TooLow)).result ∧
          (TooLowOrHit 0 7 (-1) (newDummyEvaluator .TooLow)).result < 0 + 7 - 1)) := by
  rw [all_too_low_run]
  intro h
  have h6 := (h.1 ⟨.probe, 6⟩ (by decide)).2
  exact absurd h6 (by decide)

/-! ## The degenerate range of one index -/

/-- C14: for `size = 1`, `TooLowOrHit` invokes the evaluator exactly once, on `first`, and
returns `missIndex` if `evaluator(first)` is `TooHigh` and `first` otherwise, for `TooLow` and
for `Hit` alike. -/
theorem TooLowOrHit_size_one (first missIndex : Int) (evaluator : Evaluator) :
    (TooLowOrHit first 1 missIndex evaluator).calls = [⟨.single, first⟩] ∧
    ((TooLowOrHit first 1 missIndex evaluator).calls.map (fun c => c.index)) = [first] ∧
    (evaluator first = .TooHigh → (TooLowOrHit first 1 missIndex evaluator).result = missIndex) ∧
    (evaluator first = .TooLow → (TooLowOrHit first 1 missIndex evaluator).result = first) ∧
    (evaluator first = .Hit → (TooLowOrHit first 1 missIndex evaluator).result = first) := by
  unfold TooLowOrHit
  rw [if_pos (by decide), if_neg (by decide)]
  by_cases hf : evaluator first = .TooHigh
  · rw [if_pos hf]
    refine ⟨rfl, rfl, fun _ => rfl, fun h => ?_, fun h => ?_⟩
    · rw [hf] at h
      exact absurd h (by decide)
    · rw [hf] at h
      exact absurd h (by decide)
  · rw [if_neg hf]
    exact ⟨rfl, rfl, fun h => absurd h hf, fun _ => rfl, fun _ => rfl⟩

/-- The cases `{5, []int{5}, 0}` and `{5, []int{9}, -1}` of `TestHigherOrHitNaively`: a single
element equal to the target gives index 0, a single larger element gives -1. -/
theorem TooLowOrHit_size_one_witness :
    (TooLowOrHit 0 1 (-1) (sliceEvaluator [5] 5 .TooLow)).result = 0 ∧
    (TooLowOrHit 0 1 (-1) (sliceEvaluator [9] 5 .TooLow)).result = -1 :=
  ⟨(TooLowOrHit_size_one 0 (-1) (sliceEvaluator [5] 5 .TooLow)).2.2.2.2 (by decide),
   (TooLowOrHit_size_one 0 (-1) (sliceEvaluator [9] 5 .TooLow)).2.2.1 (by decide)⟩

/-! ## Rounding of the midpoint -/

/-- Division by two truncating toward zero rounds down a non-negative sum and up a negative
one. -/
theorem tdiv_two_toward_zero (s : Int) :
    (0 ≤ s → 2 * s.tdiv 2 ≤ s) ∧ (s < 0 → s ≤ 2 * s.tdiv 2) := by
  constructor
  · intro hs
    rw [Int.tdiv_eq_ediv hs (by decide)]
    omega
  · intro hs
    have hn : s.tdiv 2 = -((-s) / 2) := by
      rw [← Int.tdiv_eq_ediv (by omega) (by decide), Int.neg_tdiv, neg_neg]
    rw [hn]
    omega

/-! ## 64-bit arithmetic -/

/-- Wrapping to 64 bits leaves a 64-bit value unchanged. -/
theorem wrap64_of_fits (x : Int) (h1 : -9223372036854775808 ≤ x)
    (h2 : x < 9223372036854775808) : wrap64 x = x := by
  unfold wrap64
  omega

/-- While `2 * first` and `2 * beyond` fit in 64 bits, one pass through the body on 64-bit
`int`s is one pass through the body on unbounded integers. -/
theorem loopBody64_eq_loopBody (first beyond missIndex : Int) (evaluator : Evaluator)
    (a b : Int) (ha : first ≤ a) (hb : b ≤ beyond) (hab : 2 ≤ b - a)
    (hlo : -9223372036854775808 ≤ 2 * first) (hhi : 2 * beyond < 9223372036854775808) :
    loopBody64 first beyond missIndex evaluator a b =
      loopBody first beyond missIndex evaluator a b := by
  have hmid := mid_between a b hab
  unfold loopBody64
  rw [wrap64_of_fits (a + b) (by omega) (by omega)]
  simp only
  rw [wrap64_of_fits (b - (a + b).tdiv 2) (by omega) (by omega),
    wrap64_of_fits ((a + b).tdiv 2 - a) (by omega) (by omega)]
  rfl

/-- C12 fails on the code at `first = 2 ^ 62 + 1`, `size = 3`: `first` and `first + size - 1`
are 64-bit values, but `a + b = 2 ^ 63 + 5` wraps to `-2 ^ 63 + 5`, so the first midpoint is
`-4611686018427387901`, far outside `[first, first + size)`.  Whatever the evaluator, the first
pass through the loop body invokes it on that index; with an evaluator that answers `TooLow`
the index is even returned. -/
theorem TooLowOrHit64_midpoint_overflow :
    (∀ evaluator : Evaluator, ∃ st rest,
      loopBody64 4611686018427387905 (wrap64 (4611686018427387905 + 3)) (-1) evaluator
        4611686018427387905 (wrap64 (4611686018427387905 + 3)) =
      (st, ⟨.probe, -4611686018427387901⟩ :: rest)) ∧
    TooLowOrHit64 1 4611686018427387905 3 (-1) (newDummyEvaluator .TooLow) =
      some ⟨-4611686018427387901, [⟨.probe, -4611686018427387901⟩], .probeLow⟩ ∧
    ¬ ((4611686018427387905 : Int) ≤ -4611686018427387901 ∧
       (-4611686018427387901 : Int) < 4611686018427387905 + 3) := by
  refine ⟨?_, by decide, by decide⟩
  intro evaluator
  have hi : Int.tdiv (wrap64 (4611686018427387905 + wrap64 (4611686018427387905 + 3))) 2 =
      -4611686018427387901 := by decide
  unfold loopBody64
  simp only [hi]
  split
  all_goals
    split_ifs
    all_goals exact ⟨_, _, rfl⟩

/-! ## The code as Go executes it: one pass through the loop body -/

/-- When the body, as Go executes it, does not return, it made the midpoint probe only, and
either raised `a` to a midpoint answered `TooLow`, or lowered `b` to a midpoint answered
`TooHigh` or `Hit`, or left both bounds unchanged because the answer was none of the three
constants. -/
theorem loopBodyGo_next {first beyond missIndex : Int} {evaluator : EvaluatorInt}
    {a b a' b' : Int} {cs : List Call}
    (h : loopBodyGo first beyond missIndex evaluator a b = (.next a' b', cs)) :
    cs = [⟨.probe, (wrap64 (a + b)).tdiv 2⟩] ∧
    ((evaluator ((wrap64 (a + b)).tdiv 2) = tooLow ∧ a' = (wrap64 (a + b)).tdiv 2 ∧ b' = b ∧
        1 < wrap64 (b - (wrap64 (a + b)).tdiv 2)) ∨
     ((evaluator ((wrap64 (a + b)).tdiv 2) = tooHigh ∨
        evaluator ((wrap64 (a + b)).tdiv 2) = hit) ∧ a' = a ∧ b' = (wrap64 (a + b)).tdiv 2 ∧
        1 < wrap64 ((wrap64 (a + b)).tdiv 2 - a)) ∨
     (evaluator ((wrap64 (a + b)).tdiv 2) ≠ tooLow ∧
        evaluator ((wrap64 (a + b)).tdiv 2) ≠ tooHigh ∧
        evaluator ((wrap64 (a + b)).tdiv 2) ≠ hit ∧ a' = a ∧ b' = b)) := by
  unfold loopBodyGo at h
  simp only at h
  split_ifs at h
  all_goals
    simp only [Prod.mk.injEq, Step.next.injEq, reduceCtorEq, false_and] at h
  all_goals
    obtain ⟨⟨rfl, rfl⟩, rfl⟩ := h
    simp_all

/-- When the body, as Go executes it, returns, it did so through one of the nine leaves of the
`switch`, and the midpoint was answered with one of the three constants. -/
theorem loopBodyGo_ret {first beyond missIndex : Int} {evaluator : EvaluatorInt}
    {a b r : Int} {e : Exit} {cs : List Call}
    (h : loopBodyGo first beyond missIndex evaluator a b = (.ret r e, cs)) :
    (evaluator ((wrap64 (a + b)).tdiv 2) = tooLow ∧
      wrap64 (b - (wrap64 (a + b)).tdiv 2) ≤ 1 ∧
      ((b < beyond ∧ evaluator b = hit ∧ r = b ∧ e = .upperHit ∧
          cs = [⟨.probe, (wrap64 (a + b)).tdiv 2⟩, ⟨.boundary, b⟩]) ∨
       (b < beyond ∧ evaluator b ≠ hit ∧ r = (wrap64 (a + b)).tdiv 2 ∧ e = .probeLow ∧
          cs = [⟨.probe, (wrap64 (a + b)).tdiv 2⟩, ⟨.boundary, b⟩]) ∨
       (¬ b < beyond ∧ r = (wrap64 (a + b)).tdiv 2 ∧ e = .probeLow ∧
          cs = [⟨.probe, (wrap64 (a + b)).tdiv 2⟩]))) ∨
    (evaluator ((wrap64 (a + b)).tdiv 2) = tooHigh ∧
      wrap64 ((wrap64 (a + b)).tdiv 2 - a) ≤ 1 ∧
      ((a ≤ first ∧ evaluator first = tooHigh ∧ r = missIndex ∧ e = .missAll ∧
          cs = [⟨.probe, (wrap64 (a + b)).tdiv 2⟩, ⟨.boundary, first⟩]) ∨
       (a ≤ first ∧ evaluator first ≠ tooHigh ∧ r = a ∧ e = .lowerBound ∧
          cs = [⟨.probe, (wrap64 (a + b)).tdiv 2⟩, ⟨.boundary, first⟩]) ∨
       (¬ a ≤ first ∧ r = a ∧ e = .lowerBound ∧
          cs = [⟨.probe, (wrap64 (a + b)).tdiv 2⟩]))) ∨
    (evaluator ((wrap64 (a + b)).tdiv 2) = hit ∧
      wrap64 ((wrap64 (a + b)).tdiv 2 - a) ≤ 1 ∧
      ((a ≥ (wrap64 (a + b)).tdiv 2 ∧ r = a ∧ e = .lowerHit ∧
          cs = [⟨.probe, (wrap64 (a + b)).tdiv 2⟩]) ∨
       (¬ a ≥ (wrap64 (a + b)).tdiv 2 ∧ evaluator a = hit ∧ r = a ∧ e = .lowerHit ∧
          cs = [⟨.probe, (wrap64 (a + b)).tdiv 2⟩, ⟨.boundary, a⟩]) ∨
       (¬ a ≥ (wrap64 (a + b)).tdiv 2 ∧ evaluator a ≠ hit ∧ r = (wrap64 (a + b)).tdiv 2 ∧
          e = .probeHit ∧ cs = [⟨.probe, (wrap64 (a + b)).tdiv 2⟩, ⟨.boundary, a⟩]))) := by
  unfold loopBodyGo at h
  simp only at h
  split_ifs at h
  all_goals
    simp only [Prod.mk.injEq, Step.ret.injEq, reduceCtorEq, false_and] at h
  all_goals
    obtain ⟨⟨rfl, rfl⟩, rfl⟩ := h
    simp_all [tooLow, tooHigh, hit]

/-- A pass that does not return, made from 64-bit bounds at least two apart on a midpoint
answered with one of the three constants, did not overflow: the new bounds are 64-bit values
inside the old ones, at least two apart, and at most half as far apart, rounded up. -/
theorem loopBodyGo_next_width {first beyond missIndex : Int} {evaluator : EvaluatorInt}
    {a b a' b' : Int} {cs : List Call}
    (ha1 : -9223372036854775808 ≤ a) (hb2 : b < 9223372036854775808) (hab : 2 ≤ b - a)
    (hv : evaluator ((wrap64 (a + b)).tdiv 2) = tooLow ∨
      evaluator ((wrap64 (a + b)).tdiv 2) = tooHigh ∨
      evaluator ((wrap64 (a + b)).tdiv 2) = hit)
    (h : loopBodyGo first beyond missIndex evaluator a b = (.next a' b', cs)) :
    cs = [⟨.probe, (wrap64 (a + b)).tdiv 2⟩] ∧ a ≤ a' ∧ b' ≤ b ∧ 2 ≤ b' - a' ∧
      2 * (b' - a') ≤ b - a + 1 := by
  have h1 := tdiv_two_bounds (wrap64 (a + b))
  have h2 := tdiv_two_toward_zero (wrap64 (a + b))
  obtain ⟨hcs, hcases⟩ := loopBodyGo_next h
  refine ⟨hcs, ?_⟩
  rcases hcases with ⟨-, rfl, rfl, hw⟩ | ⟨-, rfl, rfl, hw⟩ | ⟨n1, n2, n3, -, -⟩
  · simp only [wrap64] at h1 h2 hw ⊢
    omega
  · simp only [wrap64] at h1 h2 hw ⊢
    omega
  · rcases hv with hv | hv | hv
    · exact absurd hv n1
    · exact absurd hv n2
    · exact absurd hv n3

/-- A returning pass made the midpoint probe and at most one boundary re-evaluation after
it. -/
theorem loopBodyGo_ret_calls {first beyond missIndex : Int} {evaluator : EvaluatorInt}
    {a b r : Int} {e : Exit} {cs : List Call}
    (h : loopBodyGo first beyond missIndex evaluator a b = (.ret r e, cs)) :
    ∃ t, cs = [⟨.probe, (wrap64 (a + b)).tdiv 2⟩] ++ t ∧ (t = [] ∨ ∃ x, t = [⟨.boundary, x⟩]) := by
  rcases loopBodyGo_ret h with
    ⟨-, -, ⟨-, -, -, -, hcs⟩ | ⟨-, -, -, -, hcs⟩ | ⟨-, -, -, hcs⟩⟩ |
    ⟨-, -, ⟨-, -, -, -, hcs⟩ | ⟨-, -, -, -, hcs⟩ | ⟨-, -, -, hcs⟩⟩ |
    ⟨-, -, ⟨-, -, -, hcs⟩ | ⟨-, -, -, -, hcs⟩ | ⟨-, -, -, -, hcs⟩⟩
  all_goals
    first
      | exact ⟨[], by rw [hcs]; rfl, Or.inl rfl⟩
      | exact ⟨_, by rw [hcs]; rfl, Or.inr ⟨_, rfl⟩⟩

/-- When `first + size` has wrapped, so that `b` lies more than `2 ^ 63` below `a`, a pass on a
midpoint answered with one of the three constants returns. -/
theorem loopBodyGo_wrapped_returns {first beyond missIndex : Int} {evaluator : EvaluatorInt}
    {a b a' b' : Int} {cs : List Call}
    (ha2 : a < 9223372036854775808) (hb1 : -9223372036854775808 ≤ b)
    (hab : b - a ≤ -9223372036854775809)
    (hv : evaluator ((wrap64 (a + b)).tdiv 2) = tooLow ∨
      evaluator ((wrap64 (a + b)).tdiv 2) = tooHigh ∨
      evaluator ((wrap64 (a + b)).tdiv 2) = hit) :
    loopBodyGo first beyond missIndex evaluator a b ≠ (.next a' b', cs) := by
  intro h
  have h1 := tdiv_two_bounds (wrap64 (a + b))
  have h2 := tdiv_two_toward_zero (wrap64 (a + b))
  rcases (loopBodyGo_next h).2 with ⟨-, -, -, hw⟩ | ⟨-, -, -, hw⟩ | ⟨n1, n2, n3, -, -⟩
  · simp only [wrap64] at h1 h2 hw
    omega
  · simp only [wrap64] at h1 h2 hw
    omega
  · rcases hv with hv | hv | hv
    · exact absurd hv n1
    · exact absurd hv n2
    · exact absurd hv n3

/-! ## The code as Go executes it: evaluators that answer the three constants -/

/-- With an evaluator that only answers the three constants, the loop entered with 64-bit bounds
at least two apart returns within `b - a - 1` passes, overflow or not: a complete run is `n ≥ 1`
midpoint probes followed by at most one boundary re-evaluation, with `2 ^ (n - 1) < b - a` and
`n ≤ b - a - 1`. -/
theorem runLoopGo_three_valued {first beyond missIndex : Int} {evaluator : EvaluatorInt}
    (hev : ∀ k, evaluator k = tooLow ∨ evaluator k = tooHigh ∨ evaluator k = hit)
    (fuel : Nat) :
    ∀ a b : Int, -9223372036854775808 ≤ a → b < 9223372036854775808 → 2 ≤ b - a →
      b - a ≤ fuel + 1 →
      ∃ r e ps t, runLoopGo first beyond missIndex evaluator fuel a b = ⟨ps ++ t, some (r, e)⟩ ∧
        (∀ c ∈ ps, c.site = .probe) ∧ 1 ≤ ps.length ∧
        (2 : Int) ^ (ps.length - 1) < b - a ∧ (ps.length : Int) ≤ b - a - 1 ∧
        (t = [] ∨ ∃ x, t = [⟨.boundary, x⟩]) := by
  induction fuel with
  | zero =>
    intro a b _ _ h1 h2
    simp only [CharP.cast_eq_zero, zero_add] at h2
    omega
  | succ n ih =>
    intro a b ha hb hab hfuel
    have hps : ∀ c ∈ [(⟨.probe, (wrap64 (a + b)).tdiv 2⟩ : Call)], c.site = .probe := by
      intro c hc
      rw [List.mem_singleton] at hc
      rw [hc]
    rcases hbody : loopBodyGo first beyond missIndex evaluator a b with ⟨st, cs⟩
    cases st with
    | ret r e =>
      obtain ⟨t, hcs, ht⟩ := loopBodyGo_ret_calls hbody
      refine ⟨r, e, [⟨.probe, (wrap64 (a + b)).tdiv 2⟩], t, ?_, hps, le_refl _, ?_, ?_, ht⟩
      · simp only [runLoopGo, hbody, hcs]
      · simp only [List.length_singleton, Nat.sub_self, pow_zero]
        omega
      · simp only [List.length_singleton, Nat.cast_one]
        omega
    | next a' b' =>
      obtain ⟨hcs, h1, h2, h3, h4⟩ := loopBodyGo_next_width ha hb hab (hev _) hbody
      obtain ⟨r, e, ps, t, hrun, hprobe, hlen, hpow, hle, ht⟩ :=
        ih a' b' (by omega) (by omega) h3 (by push_cast at hfuel; omega)
      refine ⟨r, e, ⟨.probe, (wrap64 (a + b)).tdiv 2⟩ :: ps, t, ?_, ?_, ?_, ?_, ?_, ht⟩
      · simp only [runLoopGo, hbody, hrun, hcs]
        rfl
      · intro c hc
        rcases List.mem_cons.mp hc with h | h
        · rw [h]
        · exact hprobe c h
      · simp only [List.length_cons]
        omega
      · have hpow2 : (2 : Int) ^ ((⟨.probe, (wrap64 (a + b)).tdiv 2⟩ :: ps : List Call).length - 1)
            = 2 * 2 ^ (ps.length - 1) := by
          simp only [List.length_cons, Nat.add_sub_cancel]
          obtain ⟨m, hm⟩ : ∃ m, ps.length = m + 1 := ⟨ps.length - 1, by omega⟩
          rw [hm, Nat.add_sub_cancel, pow_succ]
          ring
        rw [hpow2]
        omega
      · simp only [List.length_cons]
        push_cast
        omega

/-- With an evaluator that only answers the three constants, `TooLowOrHit` on 64-bit arguments
with `size ≥ 2` returns within `size - 1` iterations, whether or not `first + size` or a sum
`a + b` wraps: a complete run is `n ≥ 1` midpoint probes followed by at most one boundary
re-evaluation, with `2 ^ (n - 1) < size` and `n ≤ size - 1`. -/
theorem TooLowOrHitGo_three_valued (first size missIndex : Int) (evaluator : EvaluatorInt)
    (fuel : Nat)
    (hf1 : -9223372036854775808 ≤ first) (hf2 : first < 9223372036854775808)
    (hs1 : 2 ≤ size) (hs2 : size < 9223372036854775808)
    (hev : ∀ k, evaluator k = tooLow ∨ evaluator k = tooHigh ∨ evaluator k = hit)
    (hfuel : size - 1 ≤ fuel) :
    ∃ r e ps t, TooLowOrHitGo fuel first size missIndex evaluator = ⟨ps ++ t, some (r, e)⟩ ∧
      (∀ c ∈ ps, c.site = .probe) ∧ 1 ≤ ps.length ∧
      (2 : Int) ^ (ps.length - 1) < size ∧ (ps.length : Int) ≤ size - 1 ∧
      (t = [] ∨ ∃ x, t = [⟨.boundary, x⟩]) := by
  unfold TooLowOrHitGo
  rw [if_neg (by omega)]
  simp only
  by_cases hwrap : first + size < 9223372036854775808
  · rw [wrap64_of_fits (first + size) (by omega) hwrap]
    obtain ⟨r, e, ps, t, hrun, hprobe, hlen, hpow, hle, ht⟩ :=
      @runLoopGo_three_valued first (first + size) missIndex evaluator hev fuel first
        (first + size) hf1 hwrap (by omega) (by omega)
    have hw : first + size - first = size := by ring
    rw [hw] at hpow hle
    exact ⟨r, e, ps, t, hrun, hprobe, hlen, hpow, hle, ht⟩
  · have hb : wrap64 (first + size) = first + size - 18446744073709551616 := by
      unfold wrap64
      omega
    rw [hb]
    obtain ⟨m, rfl⟩ : ∃ m, fuel = m + 1 := ⟨fuel - 1, by omega⟩
    rcases hbody : loopBodyGo first (first + size - 18446744073709551616) missIndex evaluator
      first (first + size - 18446744073709551616) with ⟨st, cs⟩
    cases st with
    | next a' b' =>
      exact absurd hbody (loopBodyGo_wrapped_returns hf2 (by omega) (by omega) (hev _))
    | ret r e =>
      obtain ⟨t, hcs, ht⟩ := loopBodyGo_ret_calls hbody
      refine ⟨r, e,
        [⟨.probe, (wrap64 (first + (first + size - 18446744073709551616))).tdiv 2⟩], t,
        ?_, ?_, le_refl _, ?_, ?_, ht⟩
      · simp only [runLoopGo, hbody, hcs]
      · intro c hc
        rw [List.mem_singleton] at hc
        rw [hc]
      · simp only [List.length_singleton, Nat.sub_self, pow_zero]
        omega
      · simp only [List.length_singleton, Nat.cast_one]
        omega

/-- With an evaluator that only answers the three constants, the bounds at the start of every
iteration of a loop entered with 64-bit bounds at least two apart are again 64-bit values at
least two apart. -/
theorem boundsAtGo_inv {first beyond missIndex : Int} {evaluator : EvaluatorInt}
    (hev : ∀ k, evaluator k = tooLow ∨ evaluator k = tooHigh ∨ evaluator k = hit) (n : Nat) :
    ∀ a0 b0 a b : Int, -9223372036854775808 ≤ a0 → b0 < 9223372036854775808 → 2 ≤ b0 - a0 →
      boundsAtGo first beyond missIndex evaluator n a0 b0 = some (a, b) →
      -9223372036854775808 ≤ a ∧ b < 9223372036854775808 ∧ 2 ≤ b - a := by
  induction n with
  | zero =>
    intro a0 b0 a b ha hb hab h
    simp only [boundsAtGo, Option.some.injEq, Prod.mk.injEq] at h
    obtain ⟨rfl, rfl⟩ := h
    exact ⟨ha, hb, hab⟩
  | succ n ih =>
    intro a0 b0 a b ha hb hab h
    rcases hbody : loopBodyGo first beyond missIndex evaluator a0 b0 with ⟨st, cs⟩
    cases st with
    | ret r e =>
      simp [boundsAtGo, hbody] at h
    | next a' b' =>
      simp only [boundsAtGo, hbody] at h
      obtain ⟨-, h1, h2, h3, -⟩ := loopBodyGo_next_width ha hb hab (hev _) hbody
      exact ih a' b' a b (by omega) (by omega) h3 h

/-- The run on two indexes from 0 with an evaluator that always answers 3, which is none of the
three constants: every pass probes the midpoint 1 and changes nothing, so after any number of
iterations the function has not returned. -/
theorem stutter_run (fuel : Nat) :
    TooLowOrHitGo fuel 0 2 (-1) (fun _ => 3) = ⟨List.replicate fuel ⟨.probe, 1⟩, none⟩ := by
  have hbody : loopBodyGo 0 (wrap64 (0 + 2)) (-1) (fun _ => 3) 0 (wrap64 (0 + 2)) =
      (.next 0 (wrap64 (0 + 2)), [⟨.probe, 1⟩]) := by decide
  unfold TooLowOrHitGo
  rw [if_neg (by decide)]
  simp only
  induction fuel with
  | zero => rfl
  | succ n ih =>
    simp only [runLoopGo, hbody, ih, List.replicate_succ]
    rfl

/-! ## The code as Go executes it: ranges on which no sum wraps -/

/-- While `2 * first` and `2 * beyond` are 64-bit values, the loop as Go executes it, for any
evaluator (whatever integers it answers) and observed for any number of iterations from bounds
that satisfy the invariant "`first ≤ a`, `b ≤ beyond`, `b - a ≥ 2`, and `a` is `first` or was
answered `TooLow`", passes only indexes of `[first, beyond)` to the evaluator; and if it has
returned, it did so either through `return missIndex` on line 56, with `first` answered
`TooHigh`, or through another `return`, with an index of `[first, beyond)` that is not answered
`TooHigh`. -/
theorem runLoopGo_safe {first beyond missIndex : Int} {evaluator : EvaluatorInt}
    (hlo : -9223372036854775808 ≤ 2 * first) (hhi : 2 * beyond < 9223372036854775808)
    (fuel : Nat) :
    ∀ a b : Int, first ≤ a → b ≤ beyond → 2 ≤ b - a → (a = first ∨ evaluator a = tooLow) →
      (∀ c ∈ (runLoopGo first beyond missIndex evaluator fuel a b).calls,
        first ≤ c.index ∧ c.index < beyond) ∧
      (∀ r e, (runLoopGo first beyond missIndex evaluator fuel a b).returned = some (r, e) →
        (e = .missAll ∧ r = missIndex ∧ evaluator first = tooHigh) ∨
        (e ≠ .missAll ∧ e ≠ .missSmall ∧ first ≤ r ∧ r < beyond ∧ evaluator r ≠ tooHigh)) := by
  induction fuel with
  | zero =>
    intro a b _ _ _ _
    exact ⟨fun c hc => by simp [runLoopGo] at hc, fun r e h => by simp [runLoopGo] at h⟩
  | succ n ih =>
    intro a b ha hb hab hainv
    have hw : wrap64 (a + b) = a + b := wrap64_of_fits (a + b) (by omega) (by omega)
    have hmid := mid_between a b hab
    rcases hbody : loopBodyGo first beyond missIndex evaluator a b with ⟨st, cs⟩
    cases st with
    | ret r e =>
      have hrun : runLoopGo first beyond missIndex evaluator (n + 1) a b =
          ⟨cs, some (r, e)⟩ := by
        simp only [runLoopGo, hbody]
      rw [hrun]
      have hleaf := loopBodyGo_ret hbody
      rw [hw] at hleaf
      constructor
      · intro c hc
        simp only at hc
        rcases hleaf with
          ⟨-, -, ⟨hlt, -, -, -, hcs⟩ | ⟨hlt, -, -, -, hcs⟩ | ⟨-, -, -, hcs⟩⟩ |
          ⟨-, -, ⟨-, -, -, -, hcs⟩ | ⟨-, -, -, -, hcs⟩ | ⟨-, -, -, hcs⟩⟩ |
          ⟨-, -, ⟨-, -, -, hcs⟩ | ⟨-, -, -, -, hcs⟩ | ⟨-, -, -, -, hcs⟩⟩
        all_goals
          rw [hcs] at hc
          simp only [List.mem_cons, List.mem_singleton, List.not_mem_nil, or_false] at hc
          rcases hc with rfl | rfl <;> simp only <;> omega
      · intro r' e' hre
        simp only [Option.some.injEq, Prod.mk.injEq] at hre
        obtain ⟨rfl, rfl⟩ := hre
        rcases hleaf with
          ⟨hi, -, ⟨hc, hv, hr, he, -⟩ | ⟨hc, hv, hr, he, -⟩ | ⟨hc, hr, he, -⟩⟩ |
          ⟨hi, -, ⟨hc, hv, hr, he, -⟩ | ⟨hc, hv, hr, he, -⟩ | ⟨hc, hr, he, -⟩⟩ |
          ⟨hi, -, ⟨hc, hr, he, -⟩ | ⟨hc, hv, hr, he, -⟩ | ⟨hc, hv, hr, he, -⟩⟩
        · refine Or.inr ⟨by rw [he]; decide, by rw [he]; decide, by omega, by omega, ?_⟩
          rw [hr, hv]
          decide
        · refine Or.inr ⟨by rw [he]; decide, by rw [he]; decide, by omega, by omega, ?_⟩
          rw [hr, hi]
          decide
        · refine Or.inr ⟨by rw [he]; decide, by rw [he]; decide, by omega, by omega, ?_⟩
          rw [hr, hi]
          decide
        · exact Or.inl ⟨he, hr, hv⟩
        · have hfa : a = first := by omega
          refine Or.inr ⟨by rw [he]; decide, by rw [he]; decide, by omega, by omega, ?_⟩
          rw [hr, hfa]
          exact hv
        · rcases hainv with h | h
          · omega
          · refine Or.inr ⟨by rw [he]; decide, by rw [he]; decide, by omega, by omega, ?_⟩
            rw [hr, h]
            decide
        · omega
        · refine Or.inr ⟨by rw [he]; decide, by rw [he]; decide, by omega, by omega, ?_⟩
          rw [hr, hv]
          decide
        · refine Or.inr ⟨by rw [he]; decide, by rw [he]; decide, by omega, by omega, ?_⟩
          rw [hr, hi]
          decide
    | next a' b' =>
      have hrun : runLoopGo first beyond missIndex evaluator (n + 1) a b =
          ⟨cs ++ (runLoopGo first beyond missIndex evaluator n a' b').calls,
           (runLoopGo first beyond missIndex evaluator n a' b').returned⟩ := by
        simp only [runLoopGo, hbody]
      rw [hrun]
      obtain ⟨hcs, hcases⟩ := loopBodyGo_next hbody
      rw [hw] at hcs hcases
      have hinv : first ≤ a' ∧ b' ≤ beyond ∧ 2 ≤ b' - a' ∧
          (a' = first ∨ evaluator a' = tooLow) := by
        rcases hcases with ⟨hi, h1, h2, h3⟩ | ⟨-, h1, h2, h3⟩ | ⟨-, -, -, h1, h2⟩
        · rw [wrap64_of_fits _ (by omega) (by omega)] at h3
          exact ⟨by omega, by omega, by omega, Or.inr (by rw [h1]; exact hi)⟩
        · rw [wrap64_of_fits _ (by omega) (by omega)] at h3
          exact ⟨by omega, by omega, by omega, by rw [h1]; exact hainv⟩
        · exact ⟨by omega, by omega, by omega, by rw [h1]; exact hainv⟩
      obtain ⟨ih1, ih2⟩ := ih a' b' hinv.1 hinv.2.1 hinv.2.2.1 hinv.2.2.2
      constructor
      · intro c hc
        simp only [List.mem_append] at hc
        rcases hc with hc | hc
        · rw [hcs, List.mem_singleton] at hc
          rw [hc]
          simp only
          omega
        · exact ih1 c hc
      · exact ih2

/-! ## Agreement of the embeddings -/

/-- While `2 * first` and `2 * beyond` are 64-bit values, a pass through the loop body as Go
executes it, from bounds satisfying the loop invariant and on a midpoint answered with one of
the three constants, is the pass through the body on unbounded integers. -/
theorem loopBodyGo_eq_loopBody {first beyond missIndex : Int} {evaluator : EvaluatorInt}
    (hlo : -9223372036854775808 ≤ 2 * first) (hhi : 2 * beyond < 9223372036854775808)
    (a b : Int) (ha : first ≤ a) (hb : b ≤ beyond) (hab : 2 ≤ b - a)
    (hv : evaluator ((a + b).tdiv 2) = tooLow ∨ evaluator ((a + b).tdiv 2) = tooHigh ∨
      evaluator ((a + b).tdiv 2) = hit) :
    loopBodyGo first beyond missIndex evaluator a b =
      loopBody first beyond missIndex (fun k => toEvaluation (evaluator k)) a b := by
  have hmid := mid_between a b hab
  have hHit : ∀ v : Int, toEvaluation v = .Hit ↔ v = hit := by
    intro v
    unfold toEvaluation
    split_ifs with h1 h2
    · simp only [reduceCtorEq, false_iff]
      rw [h1]
      decide
    · simp only [true_iff]
      exact h2
    · simp only [reduceCtorEq, false_iff]
      exact h2
  have hHigh : ∀ v : Int, toEvaluation v = .TooHigh ↔ v = tooHigh := by
    intro v
    unfold toEvaluation
    split_ifs with h1 h2
    · simp only [true_iff]
      exact h1
    · simp only [reduceCtorEq, false_iff]
      exact h1
    · simp only [reduceCtorEq, false_iff]
      exact h1
  unfold loopBodyGo loopBody
  rw [wrap64_of_fits (a + b) (by omega) (by omega)]
  simp only
  rw [wrap64_of_fits (b - (a + b).tdiv 2) (by omega) (by omega),
    wrap64_of_fits ((a + b).tdiv 2 - a) (by omega) (by omega)]
  simp only [hHit, hHigh]
  rcases hv with hv | hv | hv
  · rw [hv]
    rfl
  · rw [hv]
    rfl
  · rw [hv]
    rfl

/-- While `2 * first` and `2 * beyond` are 64-bit values and the evaluator answers with the
three constants on `[first, beyond)`, the loop as Go executes it, observed for at least
`b - a - 1` iterations from bounds satisfying the loop invariant, has returned, and its
invocations, result and `return` statement are those of the loop on unbounded integers. -/
theorem runLoopGo_eq_loop {first beyond missIndex : Int} {evaluator : EvaluatorInt}
    (hlo : -9223372036854775808 ≤ 2 * first) (hhi : 2 * beyond < 9223372036854775808)
    (hev : ∀ k, first ≤ k → k < beyond →
      evaluator k = tooLow ∨ evaluator k = tooHigh ∨ evaluator k = hit)
    (fuel : Nat) :
    ∀ a b : Int, first ≤ a → b ≤ beyond → 2 ≤ b - a → b - a ≤ fuel + 1 →
      runLoopGo first beyond missIndex evaluator fuel a b =
        ⟨(loop first beyond missIndex (fun k => toEvaluation (evaluator k)) a b).calls,
         some ((loop first beyond missIndex (fun k => toEvaluation (evaluator k)) a b).result,
           (loop first beyond missIndex (fun k => toEvaluation (evaluator k)) a b).exit)⟩ := by
  induction fuel with
  | zero =>
    intro a b _ _ h1 h2
    simp only [CharP.cast_eq_zero, zero_add] at h2
    omega
  | succ n ih =>
    intro a b ha hb hab hfuel
    have hmid := mid_between a b hab
    have hbody := @loopBodyGo_eq_loopBody first beyond missIndex evaluator hlo hhi a b ha hb
      hab (hev _ (by omega) (by omega))
    rcases hstep : loopBody first beyond missIndex (fun k => toEvaluation (evaluator k)) a b
      with ⟨st, cs⟩
    rw [hstep] at hbody
    cases st with
    | ret r e =>
      rw [loop_of_ret hstep]
      simp only [runLoopGo, hbody]
    | next a' b' =>
      have hnext : first ≤ a' ∧ b' ≤ beyond ∧ 2 ≤ b' - a' ∧ b' - a' < b - a := by
        rcases (loopBody_next hstep).2 with ⟨-, rfl, rfl, h1⟩ | ⟨-, rfl, rfl, h1⟩ <;> omega
      rw [loop_of_next hstep]
      simp only [runLoopGo, hbody]
      rw [ih a' b' hnext.1 hnext.2.1 hnext.2.2.1 (by push_cast at hfuel; omega)]

/-- Agreement of the embeddings: while `2 * first` and `2 * (first + size)` are 64-bit values and
the evaluator answers with the three constants on `[first, first+size)`, `TooLowOrHit` as Go
executes it, observed for at least `size - 1` iterations, has returned, and its invocations,
result and `return` statement are those of `TooLowOrHit` on unbounded integers. -/
theorem TooLowOrHitGo_eq_TooLowOrHit (first size missIndex : Int) (evaluator : EvaluatorInt)
    (fuel : Nat) (hlo : -9223372036854775808 ≤ 2 * first)
    (hhi : 2 * (first + size) < 9223372036854775808)
    (hev : ∀ k, first ≤ k → k < first + size →
      evaluator k = tooLow ∨ evaluator k = tooHigh ∨ evaluator k = hit)
    (hfuel : size - 1 ≤ fuel) :
    TooLowOrHitGo fuel first size missIndex evaluator =
      ⟨(TooLowOrHit first size missIndex (fun k => toEvaluation (evaluator k))).calls,
       some ((TooLowOrHit first size missIndex (fun k => toEvaluation (evaluator k))).result,
         (TooLowOrHit first size missIndex (fun k => toEvaluation (evaluator k))).exit)⟩ := by
  unfold TooLowOrHitGo TooLowOrHit
  by_cases h1 : size ≤ 1
  · rw [if_pos h1, if_pos h1]
    by_cases h0 : size ≤ 0
    · rw [if_pos h0, if_pos h0]
    · rw [if_neg h0, if_neg h0]
      have hHigh : toEvaluation (evaluator first) = .TooHigh ↔ evaluator first = tooHigh := by
        unfold toEvaluation
        split_ifs with h2 h3
        · simp only [true_iff]
          exact h2
        · simp only [reduceCtorEq, false_iff]
          exact h2
        · simp only [reduceCtorEq, false_iff]
          exact h2
      by_cases hf : evaluator first = tooHigh
      · rw [if_pos hf, if_pos (hHigh.mpr hf)]
      · rw [if_neg hf, if_neg (fun h => hf (hHigh.mp h))]
  · rw [if_neg h1, if_neg h1]
    simp only
    rw [wrap64_of_fits (first + size) (by omega) (by omega)]
    exact runLoopGo_eq_loop hlo hhi hev fuel first (first + size) (le_refl _) (le_refl _)
      (by omega) (by omega)

/-! ## Number of evaluator invocations and termination -/

/-- The threshold evaluator only answers the three constants. -/
theorem thresholdEvaluator_three_valued (lo hi : Int) :
    ∀ k, thresholdEvaluator lo hi k = tooLow ∨ thresholdEvaluator lo hi k = tooHigh ∨
      thresholdEvaluator lo hi k = hit := by
  intro k
  unfold thresholdEvaluator
  split_ifs
  · exact Or.inl rfl
  · exact Or.inr (Or.inr rfl)
  · exact Or.inr (Or.inl rfl)

/-- C10, as stated, fails: Go's `Evaluation` is an `int` and the `switch` has no `default`, so
with `first = 0`, `size = 2` and an evaluator that always answers 3 the loop has made three
midpoint probes after three iterations without returning, and `2 ^ (3 - 1) < 2` is false. -/
theorem TooLowOrHitGo_call_count_counterexample :
    (TooLowOrHitGo 3 0 2 (-1) (fun _ => 3)).returned = none ∧
    probeCount (TooLowOrHitGo 3 0 2 (-1) (fun _ => 3)).calls = 3 ∧
    ¬ ((2 : Int) ^ (probeCount (TooLowOrHitGo 3 0 2 (-1) (fun _ => 3)).calls - 1) < 2) := by
  decide

/-- C10, amended: for every 64-bit `first`, `size ≥ 2` and every evaluator that only answers
`TooLow`, `TooHigh` or `Hit`, the run returns (within `size - 1` iterations, overflow or not),
the number `n` of midpoint probes it makes satisfies `2 ^ (n - 1) < size`, hence
`n ≤ ⌈log₂ size⌉`; the evaluator is invoked at most `n + 1` times in total, with at most one
boundary re-evaluation, and every invocation but the last is a midpoint probe, so a boundary
re-evaluation can only be the last invocation of the returning iteration. -/
theorem TooLowOrHitGo_call_count (first size missIndex : Int) (evaluator : EvaluatorInt)
    (fuel : Nat)
    (hf1 : -9223372036854775808 ≤ first) (hf2 : first < 9223372036854775808)
    (hs1 : 2 ≤ size) (hs2 : size < 9223372036854775808)
    (hev : ∀ k, evaluator k = tooLow ∨ evaluator k = tooHigh ∨ evaluator k = hit)
    (hfuel : size - 1 ≤ fuel) :
    (TooLowOrHitGo fuel first size missIndex evaluator).returned ≠ none ∧
    1 ≤ probeCount (TooLowOrHitGo fuel first size missIndex evaluator).calls ∧
    (2 : Int) ^ (probeCount (TooLowOrHitGo fuel first size missIndex evaluator).calls - 1)
      < size ∧
    probeCount (TooLowOrHitGo fuel first size missIndex evaluator).calls
      ≤ Nat.clog 2 size.toNat ∧
    (TooLowOrHitGo fuel first size missIndex evaluator).calls.length ≤
      probeCount (TooLowOrHitGo fuel first size missIndex evaluator).calls + 1 ∧
    boundaryCount (TooLowOrHitGo fuel first size missIndex evaluator).calls ≤ 1 ∧
    ∀ c ∈ (TooLowOrHitGo fuel first size missIndex evaluator).calls.dropLast,
      c.site = .probe := by
  obtain ⟨r, e, ps, t, hrun, hps, hlen, hpow, -, ht⟩ :=
    TooLowOrHitGo_three_valued first size missIndex evaluator fuel hf1 hf2 hs1 hs2 hev hfuel
  rw [hrun]
  simp only
  have hprobes : probeCount (ps ++ t) = ps.length := by
    unfold probeCount
    rw [List.countP_append]
    have h1 : List.countP (fun c : Call => decide (c.site = .probe)) ps = ps.length := by
      rw [List.countP_eq_length]
      intro c hc
      simp [hps c hc]
    have h2 : List.countP (fun c : Call => decide (c.site = .probe)) t = 0 := by
      rcases ht with rfl | ⟨x, rfl⟩ <;> simp
    rw [h1, h2, Nat.add_zero]
  have hbound : boundaryCount (ps ++ t) ≤ 1 := by
    unfold boundaryCount
    rw [List.countP_append]
    have h1 : List.countP (fun c : Call => decide (c.site = .boundary)) ps = 0 := by
      rw [List.countP_eq_zero]
      intro c hc
      simp [hps c hc]
    have h2 : List.countP (fun c : Call => decide (c.site = .boundary)) t ≤ 1 := by
      rcases ht with rfl | ⟨x, rfl⟩ <;> simp
    omega
  have hclog : ps.length ≤ Nat.clog 2 size.toNat := by
    have h1 : 2 ^ (ps.length - 1) < size.toNat := by
      have h2 : ((2 ^ (ps.length - 1) : Nat) : Int) < ((size.toNat : Nat) : Int) := by
        rw [Int.toNat_of_nonneg (by omega)]
        push_cast
        exact hpow
      exact_mod_cast h2
    have h3 := (Nat.pow_lt_iff_lt_clog (by decide : 1 < 2)).mp h1
    omega
  rw [hprobes]
  refine ⟨by simp, hlen, hpow, hclog, ?_, hbound, ?_⟩
  · rw [List.length_append]
    rcases ht with rfl | ⟨x, rfl⟩ <;> simp
  · intro c hc
    rcases ht with rfl | ⟨x, rfl⟩
    · rw [List.append_nil] at hc
      exact hps c (List.mem_of_mem_dropLast hc)
    · rw [List.dropLast_concat] at hc
      exact hps c hc

/-- The scenario of the specification (`first = 0`, `size = 7`, indexes 0-1 too low, 2-4 hit,
5-6 too high) observed for six iterations: the run has returned, after three midpoint probes,
`2 ^ 2 < 7`, and four evaluator invocations in all, the last one a boundary re-evaluation. -/
theorem TooLowOrHitGo_call_count_witness :
    (TooLowOrHitGo 6 0 7 (-1) (thresholdEvaluator 2 5)).returned ≠ none ∧
    1 ≤ probeCount (TooLowOrHitGo 6 0 7 (-1) (thresholdEvaluator 2 5)).calls ∧
    (2 : Int) ^ (probeCount (TooLowOrHitGo 6 0 7 (-1) (thresholdEvaluator 2 5)).calls - 1)
      < 7 ∧
    probeCount (TooLowOrHitGo 6 0 7 (-1) (thresholdEvaluator 2 5)).calls
      ≤ Nat.clog 2 (7 : Int).toNat ∧
    (TooLowOrHitGo 6 0 7 (-1) (thresholdEvaluator 2 5)).calls.length ≤
      probeCount (TooLowOrHitGo 6 0 7 (-1) (thresholdEvaluator 2 5)).calls + 1 ∧
    boundaryCount (TooLowOrHitGo 6 0 7 (-1) (thresholdEvaluator 2 5)).calls ≤ 1 ∧
    (⟨.probe, 2⟩ : Call).site = .probe :=
  have h := TooLowOrHitGo_call_count 0 7 (-1) (thresholdEvaluator 2 5) 6
    (by decide) (by decide) (by decide) (by decide) (thresholdEvaluator_three_valued 2 5)
    (by decide)
  ⟨h.1, h.2.1, h.2.2.1, h.2.2.2.1, h.2.2.2.2.1, h.2.2.2.2.2.1,
   h.2.2.2.2.2.2 ⟨.probe, 2⟩ (by decide)⟩

/-- C15, as stated, fails: with `first = 0`, `size = 2` and a total evaluator that always
answers 3, a value of the `int` type `Evaluation` that is none of the three constants, no case
of the `switch` runs; the function has not returned after `size - 1 = 1` iteration, nor after
any number of iterations. -/
theorem TooLowOrHitGo_terminates_counterexample :
    (TooLowOrHitGo 1 0 2 (-1) (fun _ => 3)).returned = none ∧
    ¬ ∃ fuel : Nat, (TooLowOrHitGo fuel 0 2 (-1) (fun _ => 3)).returned ≠ none := by
  refine ⟨by decide, ?_⟩
  rintro ⟨fuel, h⟩
  rw [stutter_run fuel] at h
  exact h rfl

/-- C15, amended: the loop of `TooLowOrHit` terminates for every evaluator that only answers
`TooLow`, `TooHigh` or `Hit`, monotonic or not.  For every 64-bit `first`, `size ≥ 2` and every
such evaluator, each iteration that does not return starts from bounds with `b - a ≥ 2` and
strictly decreases `b - a` while keeping `b - a ≥ 2`; so the routine returns after at most
`size - 1` iterations: observed for any `fuel ≥ size - 1` iterations it has returned, having
started at most `size - 1` iterations. -/
theorem TooLowOrHitGo_terminates (first size missIndex : Int) (evaluator : EvaluatorInt)
    (hf1 : -9223372036854775808 ≤ first) (hf2 : first < 9223372036854775808)
    (hs1 : 2 ≤ size) (hs2 : size < 9223372036854775808)
    (hev : ∀ k, evaluator k = tooLow ∨ evaluator k = tooHigh ∨ evaluator k = hit) :
    (∀ (n : Nat) (a b a' b' : Int) (cs : List Call),
      boundsAtGo first (wrap64 (first + size)) missIndex evaluator n first
        (wrap64 (first + size)) = some (a, b) →
      loopBodyGo first (wrap64 (first + size)) missIndex evaluator a b = (.next a' b', cs) →
      2 ≤ b - a ∧ 2 ≤ b' - a' ∧ b' - a' < b - a) ∧
    (∀ fuel : Nat, size - 1 ≤ fuel →
      (TooLowOrHitGo fuel first size missIndex evaluator).returned ≠ none ∧
      (probeCount (TooLowOrHitGo fuel first size missIndex evaluator).calls : Int)
        ≤ size - 1) := by
  constructor
  · intro n a b a' b' cs hreach hbody
    by_cases hwrap : first + size < 9223372036854775808
    · rw [wrap64_of_fits (first + size) (by omega) hwrap] at hreach hbody
      obtain ⟨h1, h2, h3⟩ := boundsAtGo_inv hev n first (first + size) a b hf1 hwrap
        (by omega) hreach
      obtain ⟨-, -, -, h4, h5⟩ := loopBodyGo_next_width h1 h2 h3 (hev _) hbody
      exact ⟨h3, h4, by omega⟩
    · have hb : wrap64 (first + size) = first + size - 18446744073709551616 := by
        unfold wrap64
        omega
      rw [hb] at hreach hbody
      have hnot : ∀ a' b' cs, loopBodyGo first (first + size - 18446744073709551616) missIndex
          evaluator first (first + size - 18446744073709551616) ≠ (.next a' b', cs) :=
        fun a' b' cs => loopBodyGo_wrapped_returns hf2 (by omega) (by omega) (hev _)
      cases n with
      | zero =>
        simp only [boundsAtGo, Option.some.injEq, Prod.mk.injEq] at hreach
        obtain ⟨rfl, rfl⟩ := hreach
        exact absurd hbody (hnot a' b' cs)
      | succ m =>
        rcases hfirst : loopBodyGo first (first + size - 18446744073709551616) missIndex
          evaluator first (first + size - 18446744073709551616) with ⟨st, cs0⟩
        cases st with
        | next a1 b1 => exact absurd hfirst (hnot a1 b1 cs0)
        | ret r e => simp [boundsAtGo, hfirst] at hreach
  · intro fuel hfuel
    obtain ⟨r, e, ps, t, hrun, hps, -, -, hle, ht⟩ :=
      TooLowOrHitGo_three_valued first size missIndex evaluator fuel hf1 hf2 hs1 hs2 hev hfuel
    rw [hrun]
    have hprobes : probeCount (ps ++ t) = ps.length := by
      unfold probeCount
      rw [List.countP_append]
      have h1 : List.countP (fun c : Call => decide (c.site = .probe)) ps = ps.length := by
        rw [List.countP_eq_length]
        intro c hc
        simp [hps c hc]
      have h2 : List.countP (fun c : Call => decide (c.site = .probe)) t = 0 := by
        rcases ht with rfl | ⟨x, rfl⟩ <;> simp
      rw [h1, h2, Nat.add_zero]
    simp only
    rw [hprobes]
    exact ⟨by simp, hle⟩

/-- An evaluator that is not monotonic (hit below 3 and from 6 on, too low on 3-5) over seven
indexes from 0: the first iteration narrows the bounds from `(0, 7)` to `(3, 7)`, and the run
observed for six iterations has returned. -/
theorem TooLowOrHitGo_terminates_witness :
    ((2 : Int) ≤ 7 - 0 ∧ (2 : Int) ≤ 7 - 3 ∧ (7 : Int) - 3 < 7 - 0) ∧
    (TooLowOrHitGo 6 0 7 (-1)
      (fun k => if 3 ≤ k ∧ k < 6 then tooLow else hit)).returned ≠ none :=
  have h := TooLowOrHitGo_terminates 0 7 (-1) (fun k => if 3 ≤ k ∧ k < 6 then tooLow else hit)
    (by decide) (by decide) (by decide) (by decide)
    (fun k => by
      by_cases hk : 3 ≤ k ∧ k < 6
      · exact Or.inl (if_pos hk)
      · exact Or.inr (Or.inr (if_neg hk)))
  ⟨h.1 0 0 7 3 7 [⟨.probe, 3⟩] (by decide) (by decide), (h.2 6 (by decide)).1⟩

/-! ## Ranges and results on ranges where no sum wraps -/

/-- While `2 * first` and `2 * (first + size)` are 64-bit values and `size ≥ 1`, `TooLowOrHit`
as Go executes it, for any evaluator and observed for any number of iterations, passes only
indexes of `[first, first+size)` to the evaluator; and if it has returned, it did so either
through one of the two `return missIndex`, with `first` answered `TooHigh`, or through another
`return`, with an index of `[first, first+size)` that is not answered `TooHigh`. -/
theorem TooLowOrHitGo_safe (first size missIndex : Int) (evaluator : EvaluatorInt) (fuel : Nat)
    (hsize : 1 ≤ size) (hlo : -9223372036854775808 ≤ 2 * first)
    (hhi : 2 * (first + size) < 9223372036854775808) :
    (∀ c ∈ (TooLowOrHitGo fuel first size missIndex evaluator).calls,
      first ≤ c.index ∧ c.index < first + size) ∧
    (∀ r e, (TooLowOrHitGo fuel first size missIndex evaluator).returned = some (r, e) →
      ((e = .missSmall ∨ e = .missAll) ∧ r = missIndex ∧ evaluator first = tooHigh) ∨
      (e ≠ .missSmall ∧ e ≠ .missAll ∧ first ≤ r ∧ r < first + size ∧
        evaluator r ≠ tooHigh)) := by
  unfold TooLowOrHitGo
  by_cases h1 : size ≤ 1
  · rw [if_pos h1, if_neg (by omega)]
    by_cases hf : evaluator first = tooHigh
    · rw [if_pos hf]
      refine ⟨fun c hc => ?_, fun r e h => ?_⟩
      · simp only [List.mem_singleton] at hc
        rw [hc]
        simp only
        omega
      · simp only [Option.some.injEq, Prod.mk.injEq] at h
        exact Or.inl ⟨Or.inl h.2.symm, h.1.symm, hf⟩
    · rw [if_neg hf]
      refine ⟨fun c hc => ?_, fun r e h => ?_⟩
      · simp only [List.mem_singleton] at hc
        rw [hc]
        simp only
        omega
      · simp only [Option.some.injEq, Prod.mk.injEq] at h
        obtain ⟨rfl, rfl⟩ := h
        exact Or.inr ⟨by decide, by decide, le_refl _, by omega, hf⟩
  · rw [if_neg h1]
    simp only
    rw [wrap64_of_fits (first + size) (by omega) (by omega)]
    obtain ⟨hc, hr⟩ := @runLoopGo_safe first (first + size) missIndex evaluator hlo hhi fuel
      first (first + size) (le_refl _) (le_refl _) (by omega) (Or.inl rfl)
    refine ⟨hc, fun r e h => ?_⟩
    rcases hr r e h with ⟨h2, h3, h4⟩ | ⟨h2, h3, h4⟩
    · exact Or.inl ⟨Or.inr h2, h3, h4⟩
    · exact Or.inr ⟨h3, h2, h4⟩

/-- C11, amended: `TooLowOrHit` uses only indexes in the range `[first, first+size)`.  For every
`first` and `size ≥ 1` such that `2 * first` and `2 * (first + size)` are 64-bit values (so that
neither `first + size` nor a sum `a + b` wraps), every `missIndex` and every evaluator, every
index passed to the evaluator, in a run observed for any number of iterations, and every
returned index other than `missIndex` satisfies `first ≤ index < first + size`. -/
theorem TooLowOrHitGo_uses_range (first size missIndex : Int) (evaluator : EvaluatorInt)
    (fuel : Nat) (hsize : 1 ≤ size) (hlo : -9223372036854775808 ≤ 2 * first)
    (hhi : 2 * (first + size) < 9223372036854775808) :
    (∀ c ∈ (TooLowOrHitGo fuel first size missIndex evaluator).calls,
      first ≤ c.index ∧ c.index < first + size) ∧
    (∀ r e, (TooLowOrHitGo fuel first size missIndex evaluator).returned = some (r, e) →
      r ≠ missIndex → first ≤ r ∧ r < first + size) := by
  obtain ⟨hc, hr⟩ := TooLowOrHitGo_safe first size missIndex evaluator fuel hsize hlo hhi
  refine ⟨hc, fun r e h hne => ?_⟩
  rcases hr r e h with ⟨-, h1, -⟩ | ⟨-, -, h1, h2, -⟩
  · exact absurd h1 hne
  · exact ⟨h1, h2⟩

/-- On seven indexes from 0 that are all too low, observed for six iterations: the index 6 is
passed to the evaluator and returned, and it lies in `[0, 7)`. -/
theorem TooLowOrHitGo_uses_range_witness :
    ((0 : Int) ≤ 6 ∧ (6 : Int) < 0 + 7) ∧ ((0 : Int) ≤ 6 ∧ (6 : Int) < 0 + 7) :=
  have h := TooLowOrHitGo_uses_range 0 7 (-1) (fun _ => tooLow) 6
    (by decide) (by decide) (by decide)
  ⟨h.1 ⟨.probe, 6⟩ (by decide), h.2 6 .probeLow (by decide) (by decide)⟩

/-- C8, as stated, fails: Go's `Evaluation` is an `int`, so with `first = 0`, `size = 1` and an
evaluator that answers 3 the function returns `first` through `return first` on line 38, which
is not one of the two `return missIndex`, and `evaluator(first)` is neither `TooLow` nor
`Hit`. -/
theorem TooLowOrHitGo_never_too_high_counterexample :
    ¬ (∀ r e, (TooLowOrHitGo 0 0 1 (-1) (fun _ => 3)).returned = some (r, e) →
        (e ≠ .missSmall ∧ e ≠ .missAll) →
        (0 : Int) ≤ r ∧ r < 0 + 1 ∧
          ((fun _ => 3 : EvaluatorInt) r = tooLow ∨ (fun _ => 3 : EvaluatorInt) r = hit)) := by
  intro h
  have h0 := (h 0 .firstSmall (by decide) (by decide)).2.2
  revert h0
  decide

/-- C8, amended: an index classified `TooHigh` is never returned.  For every `first` and
`size ≥ 1` such that `2 * first` and `2 * (first + size)` are 64-bit values, every `missIndex`
and every evaluator, if `TooLowOrHit` returns `r` through a statement other than the two
`return missIndex`, then `r` is an index of `[first, first+size)` and `evaluator(r)` is not
`TooHigh`, hence is `TooLow` or `Hit` whenever it is one of the three constants (and the two
`return missIndex` do return `missIndex`); hence, when `missIndex` lies outside the range, a
result other than `missIndex` is not classified `TooHigh`. -/
theorem TooLowOrHitGo_never_too_high (first size missIndex : Int) (evaluator : EvaluatorInt)
    (fuel : Nat) (hsize : 1 ≤ size) (hlo : -9223372036854775808 ≤ 2 * first)
    (hhi : 2 * (first + size) < 9223372036854775808) (r : Int) (e : Exit)
    (hret : (TooLowOrHitGo fuel first size missIndex evaluator).returned = some (r, e)) :
    ((e ≠ .missSmall ∧ e ≠ .missAll) →
      first ≤ r ∧ r < first + size ∧ evaluator r ≠ tooHigh ∧
      ((evaluator r = tooLow ∨ evaluator r = tooHigh ∨ evaluator r = hit) →
        (evaluator r = tooLow ∨ evaluator r = hit))) ∧
    ((e = .missSmall ∨ e = .missAll) → r = missIndex) ∧
    (¬ (first ≤ missIndex ∧ missIndex < first + size) → r ≠ missIndex →
      evaluator r ≠ tooHigh) := by
  rcases (TooLowOrHitGo_safe first size missIndex evaluator fuel hsize hlo hhi).2 r e hret with
    ⟨h1, h2, -⟩ | ⟨h1, h2, h3, h4, h5⟩
  · refine ⟨?_, fun _ => h2, fun _ hne => absurd h2 hne⟩
    rintro ⟨n1, n2⟩
    rcases h1 with h1 | h1
    · exact absurd h1 n1
    · exact absurd h1 n2
  · refine ⟨fun _ => ⟨h3, h4, h5, ?_⟩, ?_, fun _ _ => h5⟩
    · rintro (h | h | h)
      · exact Or.inl h
      · exact absurd h h5
      · exact Or.inr h
    · rintro (h | h)
      · exact absurd h h1
      · exact absurd h h2

/-- In the scenario of the specification (`first = 0`, `size = 7`, `missIndex = -1`, indexes 0-1
too low, 2-4 hit, 5-6 too high) the run ends through `return i` on line 66 with result 2, which
is inside `[0, 7)` and answered `Hit`. -/
theorem TooLowOrHitGo_never_too_high_witness :
    ((0 : Int) ≤ 2 ∧ (2 : Int) < 0 + 7 ∧ thresholdEvaluator 2 5 2 ≠ tooHigh ∧
      ((thresholdEvaluator 2 5 2 = tooLow ∨ thresholdEvaluator 2 5 2 = tooHigh ∨
          thresholdEvaluator 2 5 2 = hit) →
        (thresholdEvaluator 2 5 2 = tooLow ∨ thresholdEvaluator 2 5 2 = hit))) ∧
    thresholdEvaluator 2 5 2 ≠ tooHigh :=
  have h := TooLowOrHitGo_never_too_high 0 7 (-1) (thresholdEvaluator 2 5) 6
    (by decide) (by decide) (by decide) 2 .probeHit (by decide)
  ⟨h.1 (by decide), h.2.2 (by decide) (by decide)⟩

/-! ## The overflowing midpoint -/

/-- C2 fails on the code at `first = 2 ^ 62 + 1`, `size = 3`, with two too-low indexes followed
by one too-high index (`L = 2`, `H = 1`): the evaluator answers `TooLow` below `first + 2` and
`TooHigh` from there on, but `a + b` wraps, the midpoint `-4611686018427387901` is answered
`TooLow`, and that index is returned instead of `first + L - 1`, whatever the number of
iterations observed. -/
theorem TooLowOrHitGo_overflow_highest_too_low :
    thresholdEvaluator (overflowFirst + 2) (overflowFirst + 2) overflowFirst = tooLow ∧
    thresholdEvaluator (overflowFirst + 2) (overflowFirst + 2) (overflowFirst + 1) = tooLow ∧
    thresholdEvaluator (overflowFirst + 2) (overflowFirst + 2) (overflowFirst + 2) = tooHigh ∧
    (∀ fuel : Nat,
      TooLowOrHitGo (fuel + 1) overflowFirst 3 (-1)
        (thresholdEvaluator (overflowFirst + 2) (overflowFirst + 2)) =
      ⟨[⟨.probe, wrappedMidpoint⟩], some (wrappedMidpoint, .probeLow)⟩) ∧
    wrappedMidpoint ≠ overflowFirst + 2 - 1 :=
  ⟨by decide, by decide, by decide, fun _ => rfl, by decide⟩

/-- C3 fails on the code at `first = 2 ^ 62 + 1`, `size = 3`, `missIndex = -1`: every index of
the range is answered `TooHigh` (the evaluator answers `TooLow` below `first`), but `a + b`
wraps, the midpoint `-4611686018427387901` is answered `TooLow`, and that index is returned
through `return i` on line 50 instead of `missIndex`. -/
theorem TooLowOrHitGo_overflow_all_too_high :
    (∀ k : Int, overflowFirst ≤ k → k < overflowFirst + 3 →
      thresholdEvaluator overflowFirst overflowFirst k = tooHigh) ∧
    (∀ fuel : Nat,
      TooLowOrHitGo (fuel + 1) overflowFirst 3 (-1)
        (thresholdEvaluator overflowFirst overflowFirst) =
      ⟨[⟨.probe, wrappedMidpoint⟩], some (wrappedMidpoint, .probeLow)⟩) ∧
    wrappedMidpoint ≠ -1 := by
  refine ⟨fun k h1 h2 => ?_, fun _ => rfl, by decide⟩
  unfold thresholdEvaluator
  rw [if_neg (by omega), if_neg (by omega)]

/-- C7 fails on the code at `first = 2 ^ 62 + 1`, `size = 3`, `missIndex = -1`, with an
evaluator that always answers `TooLow`: `a + b` wraps and the returned value
`-4611686018427387901` is neither `missIndex` nor an index of `[first, first+size)`. -/
theorem TooLowOrHitGo_overflow_result_out_of_range :
    (∀ fuel : Nat,
      TooLowOrHitGo (fuel + 1) overflowFirst 3 (-1) (fun _ => tooLow) =
      ⟨[⟨.probe, wrappedMidpoint⟩], some (wrappedMidpoint, .probeLow)⟩) ∧
    ¬ (wrappedMidpoint = -1 ∨
      (overflowFirst ≤ wrappedMidpoint ∧ wrappedMidpoint < overflowFirst + 3)) :=
  ⟨fun _ => rfl, by decide⟩

/-- C9 fails on the code at `first = 2 ^ 62 + 1`, `size = 3`: whatever the evaluator, the first
pass through the loop body invokes it on `-4611686018427387901`, outside the range on which it
is assumed total and monotonic; and with an evaluator that answers `TooLow` on the whole range
and `Hit` outside it, the function returns `first` instead of `first + 2`, the highest too-low
index. -/
theorem TooLowOrHitGo_overflow_leaves_domain :
    (∀ evaluator : EvaluatorInt, ∃ st rest,
      loopBodyGo overflowFirst (wrap64 (overflowFirst + 3)) (-1) evaluator
        overflowFirst (wrap64 (overflowFirst + 3)) =
      (st, ⟨.probe, wrappedMidpoint⟩ :: rest)) ∧
    ¬ (overflowFirst ≤ wrappedMidpoint ∧ wrappedMidpoint < overflowFirst + 3) ∧
    (∀ fuel : Nat,
      TooLowOrHitGo (fuel + 1) overflowFirst 3 (-1)
        (rangeEvaluator overflowFirst 3 tooLow hit) =
      ⟨[⟨.probe, wrappedMidpoint⟩], some (overflowFirst, .lowerHit)⟩) ∧
    overflowFirst ≠ overflowFirst + 3 - 1 := by
  refine ⟨?_, by decide, fun _ => rfl, by decide⟩
  intro evaluator
  have hi : Int.tdiv (wrap64 (overflowFirst + wrap64 (overflowFirst + 3))) 2 =
      wrappedMidpoint := by decide
  unfold loopBodyGo
  simp only [hi]
  split_ifs
  all_goals exact ⟨_, _, rfl⟩

/-- C13 fails on the code at `first = 2 ^ 62 + 1`, `size = 3`: the first iteration starts with
`a = first`, `b = first + 3`, but `a + b` wraps and the midpoint `-4611686018427387901` is
below `a`, not between `a` and `b`; with an evaluator that always answers `Hit` the test
`a >= i` of the `Hit` branch is true and the function returns `a` through it, after the
midpoint probe only. -/
theorem TooLowOrHitGo_overflow_breaks_invariant :
    boundsAtGo overflowFirst (wrap64 (overflowFirst + 3)) (-1) (fun _ => hit) 0
      overflowFirst (wrap64 (overflowFirst + 3)) = some (overflowFirst, overflowFirst + 3) ∧
    Int.tdiv (wrap64 (overflowFirst + (overflowFirst + 3))) 2 = wrappedMidpoint ∧
    ¬ (overflowFirst < wrappedMidpoint) ∧ overflowFirst ≥ wrappedMidpoint ∧
    loopBodyGo overflowFirst (wrap64 (overflowFirst + 3)) (-1) (fun _ => hit)
      overflowFirst (overflowFirst + 3) =
      (.ret overflowFirst .lowerHit, [⟨.probe, wrappedMidpoint⟩]) := by
  decide

/-- C16 fails on the code at `first = 2 ^ 62 + 1`, `size = 3`: two evaluators that agree on
`[first, first+size)`, where both answer `TooLow`, and differ outside it, where one answers
`TooLow` and the other `Hit`, give different results, because `a + b` wraps and the midpoint
`-4611686018427387901` is evaluated outside the range. -/
theorem TooLowOrHitGo_overflow_depends_outside :
    (∀ k : Int, overflowFirst ≤ k → k < overflowFirst + 3 →
      rangeEvaluator overflowFirst 3 tooLow tooLow k =
        rangeEvaluator overflowFirst 3 tooLow hit k) ∧
    (∀ fuel : Nat,
      TooLowOrHitGo (fuel + 1) overflowFirst 3 (-1)
        (rangeEvaluator overflowFirst 3 tooLow tooLow) =
      ⟨[⟨.probe, wrappedMidpoint⟩], some (wrappedMidpoint, .probeLow)⟩) ∧
    (∀ fuel : Nat,
      TooLowOrHitGo (fuel + 1) overflowFirst 3 (-1)
        (rangeEvaluator overflowFirst 3 tooLow hit) =
      ⟨[⟨.probe, wrappedMidpoint⟩], some (overflowFirst, .lowerHit)⟩) ∧
    wrappedMidpoint ≠ overflowFirst := by
  refine ⟨fun k h1 h2 => ?_, fun _ => rfl, fun _ => rfl, by decide⟩
  unfold rangeEvaluator
  rw [if_pos ⟨h1, h2⟩, if_pos ⟨h1, h2⟩]

/-- C17 fails on the code at `first = 2 ^ 62 + 1`, `size = 3`.  With
`missIndex = -4611686018427387901`, which is outside the range, and an evaluator that always
answers `TooLow`, `a + b` wraps and the function returns `missIndex` through `return i` on
line 50 although `evaluator(first)` is `TooLow`.  And with `missIndex = -1` and the monotonic
evaluator that answers `TooHigh` on the whole range (`TooLow` below `first`), the result is not
`missIndex` although every index of the range is `TooHigh`. -/
theorem TooLowOrHitGo_overflow_miss_index :
    ¬ (overflowFirst ≤ wrappedMidpoint ∧ wrappedMidpoint < overflowFirst + 3) ∧
    (∀ fuel : Nat,
      TooLowOrHitGo (fuel + 1) overflowFirst 3 wrappedMidpoint (fun _ => tooLow) =
      ⟨[⟨.probe, wrappedMidpoint⟩], some (wrappedMidpoint, .probeLow)⟩) ∧
    (fun _ => tooLow : EvaluatorInt) overflowFirst ≠ tooHigh ∧
    (∀ k : Int, overflowFirst ≤ k → k < overflowFirst + 3 →
      thresholdEvaluator overflowFirst overflowFirst k = tooHigh) ∧
    (∀ fuel : Nat,
      TooLowOrHitGo (fuel + 1) overflowFirst 3 (-1)
        (thresholdEvaluator overflowFirst overflowFirst) =
      ⟨[⟨.probe, wrappedMidpoint⟩], some (wrappedMidpoint, .probeLow)⟩) ∧
    wrappedMidpoint ≠ -1 := by
  refine ⟨by decide, fun _ => rfl, by decide, fun k h1 h2 => ?_, fun _ => rfl, by decide⟩
  unfold thresholdEvaluator
  rw [if_neg (by omega), if_neg (by omega)]

end binarysearch
